import Mathlib

/-!
# Verification of the InkWell-AI real-time collaboration core

A shallow embedding of the collaboration core of the repository:

* `backend/app/services/websocket_manager.py` (`ConnectionManager`, the
  registered message handlers),
* `backend/app/services/document_service.py` (`DocumentCollaboration`,
  `_calculate_changes`, `get_version_diff`),
* `backend/app/api/endpoints/collaboration.py` (`create_document_version`),

together with a faithful embedding of the parts of CPython `difflib`
(`SequenceMatcher` with `isjunk=None`, `unified_diff`) that the document
service calls.

Python dictionaries are modelled as association lists in insertion order,
`defaultdict` as total functions with an empty default, Python truthiness by
an explicit `truthy` function, JSON-ish runtime values by the inductive
`PyVal`, and the wall clock / `uuid4` by explicit string parameters.
-/

/-- A Python runtime value as produced by `json.loads` and manipulated by the
handlers: `None`, booleans, integers, strings, lists and string-keyed dicts. -/
inductive PyVal where
  | null : PyVal
  | bool : Bool → PyVal
  | int : Int → PyVal
  | str : String → PyVal
  | list : List PyVal → PyVal
  | dict : List (String × PyVal) → PyVal

/-- `x is None`. -/
def isNull : PyVal → Bool
  | .null => true
  | _ => false

/-- Python truthiness (`bool(x)`): `None`, `False`, `0`, `""`, `[]`, and
empty dicts are falsy; everything else is truthy. -/
def truthy : PyVal → Bool
  | .null => false
  | .bool b => b
  | .int n => n != 0
  | .str s => s != ""
  | .list l => !l.isEmpty
  | .dict l => !l.isEmpty

/-- `str(x)` as used by f-string interpolation in error messages.  Strings
interpolate verbatim; other values through their textual form. -/
def pyStr : PyVal → String
  | .null => "None"
  | .bool b => if b then "True" else "False"
  | .int n => toString n
  | .str s => s
  | .list _ => "[...]"
  | .dict _ => "dict"

/-- Lookup in a Python dict (first matching key of the association list). -/
def dictLookup {α : Type} (l : List (String × α)) (k : String) : Option α :=
  (l.find? (fun p => p.1 == k)).map (fun p => p.2)

/-- Python `d[k] = v`: overwrite in place if the key exists (keeping its
position in insertion order), else append. -/
def dictUpsert {α : Type} (l : List (String × α)) (k : String) (v : α) :
    List (String × α) :=
  if l.any (fun p => p.1 == k) then
    l.map (fun p => if p.1 == k then (k, v) else p)
  else l ++ [(k, v)]

/-- Python `del d[k]` (a no-op when the key is absent, matching the guarded
deletes in the source). -/
def dictDel {α : Type} (l : List (String × α)) (k : String) : List (String × α) :=
  l.filter (fun p => p.1 ≠ k)

/-- Python `s.add(x)` on a set modelled as a duplicate-free list. -/
def setAdd (l : List String) (x : String) : List String :=
  if x ∈ l then l else l ++ [x]

/-- Python `s.discard(x)`. -/
def setDiscard (l : List String) (x : String) : List String :=
  l.filter (fun y => y ≠ x)

/-- `message.get(k, default)` on a parsed message. -/
def pyGet (msg : PyVal) (k : String) (dflt : PyVal) : PyVal :=
  match msg with
  | .dict l => (dictLookup l k).getD dflt
  | _ => dflt

/-- `target.update(src)` for two Python dicts (used by `presence_update`).
A non-dict argument raises in Python; no claim exercises that path, and it is
modelled as leaving the target unchanged. -/
def pyDictUpdate (target src : PyVal) : PyVal :=
  match target, src with
  | .dict t, .dict s => .dict (s.foldl (fun acc p => dictUpsert acc p.1 p.2) t)
  | t, _ => t

/-- A live WebSocket handle.  Python compares handles by object identity;
distinct connections get distinct numbers. -/
abbrev Conn := Nat

/-- The mutable state of `ConnectionManager`:
`active_connections : document_id -> (user_id -> websocket)` (a
`defaultdict(dict)`, inner dicts in insertion order), the
`user_subscriptions` reverse index `user_id -> set(document_id)`, and
`presence : document_id -> (user_id -> presence dict)`.
A key that was never written maps to the empty list, which is observationally
what every read path of the source sees for an absent or emptied key. -/
structure MState where
  active : String → List (String × Conn)
  subs : String → List String
  presence : String → List (String × PyVal)

/-- The state of the freshly constructed singleton manager. -/
def initState : MState :=
  { active := fun _ => [], subs := fun _ => [], presence := fun _ => [] }

/-- Point update of a string-indexed table. -/
def upd {α : Type} (f : String → α) (k : String) (v : α) : String → α :=
  fun k2 => if k2 = k then v else f k2

/-- An observable output effect: a frame delivered (or attempted) to one
connection.  `send_text` of a serialized dict and `send_json` both deliver
the structured payload. -/
inductive Event where
  | send : Conn → PyVal → Event

/-- The recipient of an event. -/
def Event.to : Event → Conn
  | .send c _ => c

/-- The payload of an event. -/
def Event.payload : Event → PyVal
  | .send _ m => m

/-- `ConnectionManager.connect(websocket, document_id, user_id)`:
synthesizes an anonymous id for a falsy `user_id`, registers the handle
under `(document_id, user_id)`, adds the document to the user's
subscription set, and initializes the presence record.  `now` stands for
`datetime.utcnow().isoformat()`.  Returns the new state and the user id. -/
def connect (st : MState) (ws : Conn) (document_id : String)
    (user_id : Option String) (now : String) : MState × String :=
  let user : String :=
    match user_id with
    | none => "anonymous_" ++ toString ws
    | some u => if u = "" then "anonymous_" ++ toString ws else u
  ({ active := upd st.active document_id (dictUpsert (st.active document_id) user ws)
     subs := upd st.subs user (setAdd (st.subs user) document_id)
     presence := upd st.presence document_id
       (dictUpsert (st.presence document_id) user
         (.dict [("last_seen", .str now), ("status", .str "online")])) },
   user)

/-- The user-resolution step at the top of `disconnect`: a falsy `user_id`
is replaced by the first user whose registered handle matches `websocket`
(`None` when no connection matches). -/
def resolveUser (st : MState) (ws : Conn) (document_id : String)
    (user_id : Option String) : Option String :=
  match user_id with
  | some u =>
      if u = "" then
        ((st.active document_id).find? (fun p => p.2 == ws)).map (fun p => p.1)
      else some u
  | none => ((st.active document_id).find? (fun p => p.2 == ws)).map (fun p => p.1)

/-- The state after `disconnect` removes a resolved user's entries. -/
def removeUser (st : MState) (document_id u : String) : MState :=
  { active := upd st.active document_id (dictDel (st.active document_id) u)
    subs := upd st.subs u (setDiscard (st.subs u) document_id)
    presence := upd st.presence document_id (dictDel (st.presence document_id) u) }

/-- `ConnectionManager.disconnect(websocket, document_id, user_id)`: with a
falsy `user_id` the registry resolves the user by scanning the document's
connections for the handle (no-op if absent); then it removes the forward
entry, discards the document from the user's subscription set (the source
additionally deletes the emptied set, which the empty-default model already
captures), and deletes the presence record. -/
def disconnect (st : MState) (ws : Conn) (document_id : String)
    (user_id : Option String) : MState :=
  match resolveUser st ws document_id user_id with
  | none => st
  | some u => removeUser st document_id u

/-- `ConnectionManager.broadcast(document_id, message, exclude,
exclude_users)`: iterates a snapshot of the document's connections, skips the
exclusion sets, sends to each remaining connection, collects the connections
whose send raised (`fails` models which handles' `send_text` raises), and
finally disconnects exactly those.  Returns the new state and the delivered
events in order. -/
def broadcast (st : MState) (document_id : String) (message : PyVal)
    (exclude : List Conn) (exclude_users : List String) (fails : Conn → Bool) :
    MState × List Event :=
  let step := fun (acc : List Event × List (String × Conn)) (p : String × Conn) =>
    if p.2 ∈ exclude ∨ p.1 ∈ exclude_users then acc
    else if fails p.2 then (acc.1, acc.2 ++ [p])
    else (acc.1 ++ [Event.send p.2 message], acc.2)
  let r := (st.active document_id).foldl step ([], [])
  let st2 := r.2.foldl (fun s p => disconnect s p.2 document_id (some p.1)) st
  (st2, r.1)

/-- `ConnectionManager.get_connected_users(document_id)`: the presence
snapshot for the document, as `(user_id, data)` pairs in insertion order. -/
def get_connected_users (st : MState) (document_id : String) :
    List (String × PyVal) :=
  st.presence document_id

/-- The error reply of `handle_content_update` for missing fields. -/
def contentUpdateError : PyVal :=
  .dict [("type", .str "error"),
         ("message", .str "Missing required fields: changes and version are required")]

/-- The broadcast payload of `handle_content_update`. -/
def contentUpdatePayload (user_id : String) (changes version : PyVal) (ts : String) : PyVal :=
  .dict [("type", .str "content_update"), ("user_id", .str user_id),
         ("changes", changes), ("version", version), ("timestamp", .str ts)]

/-- The acknowledgement reply of `handle_content_update`. -/
def contentUpdateAck (version : PyVal) (ts : String) : PyVal :=
  .dict [("type", .str "content_update_ack"), ("version", version),
         ("timestamp", .str ts)]

/-- `handle_content_update`: reads `changes` (default `[]`) and `version`
from the message; if `changes` is falsy or `version` is `None`, replies with
an error to the sender only; otherwise broadcasts the update to all other
connections on the document (excluding the sender's handle) and then sends
the acknowledgement to the sender.  `ts` stands for
`datetime.utcnow().isoformat()`. -/
def handle_content_update (st : MState) (ws : Conn) (document_id user_id : String)
    (message : PyVal) (ts : String) (fails : Conn → Bool) : MState × List Event :=
  let changes := pyGet message "changes" (.list [])
  let version := pyGet message "version" .null
  if !truthy changes || isNull version then
    (st, [Event.send ws contentUpdateError])
  else
    let r := broadcast st document_id
      (contentUpdatePayload user_id changes version ts) [ws] [] fails
    (r.1, r.2 ++ [Event.send ws (contentUpdateAck version ts)])

/-- The error reply of `handle_comment` for missing fields. -/
def commentError : PyVal :=
  .dict [("type", .str "error"),
         ("message", .str "Missing required fields: comment and range are required")]

/-- The broadcast payload of `handle_comment`; `uuidHex` stands for
`uuid.uuid4().hex`. -/
def commentPayload (user_id : String) (comment range : PyVal) (ts uuidHex : String) : PyVal :=
  .dict [("type", .str "comment"), ("id", .str ("comment_" ++ uuidHex)),
         ("user_id", .str user_id), ("comment", comment), ("range", range),
         ("timestamp", .str ts), ("status", .str "active")]

/-- `handle_comment`: reads `comment` and `range`; if either is falsy,
replies with an error to the sender only; otherwise creates a comment with a
server-generated id and timestamp and broadcasts it to all connections of
the document with no exclusions (the sender included). -/
def handle_comment (st : MState) (ws : Conn) (document_id user_id : String)
    (message : PyVal) (ts uuidHex : String) (fails : Conn → Bool) : MState × List Event :=
  let comment := pyGet message "comment" .null
  let range := pyGet message "range" .null
  if !truthy comment || !truthy range then
    (st, [Event.send ws commentError])
  else
    broadcast st document_id (commentPayload user_id comment range ts uuidHex) [] [] fails

/-- The broadcast payload of `handle_cursor_update`. -/
def cursorUpdatePayload (user_id : String) (position user_info : PyVal) (ts : String) : PyVal :=
  .dict [("type", .str "cursor_update"), ("user_id", .str user_id),
         ("position", position), ("user_info", user_info), ("timestamp", .str ts)]

/-- `handle_cursor_update`: broadcasts the cursor position to all other
connections on the document, excluding the sender's handle. -/
def handle_cursor_update (st : MState) (ws : Conn) (document_id user_id : String)
    (message : PyVal) (ts : String) (fails : Conn → Bool) : MState × List Event :=
  broadcast st document_id
    (cursorUpdatePayload user_id (pyGet message "position" .null)
      (pyGet message "user_info" (.dict [])) ts)
    [ws] [] fails

/-- `handle_presence_update`: merges the message's `status` dict into the
sender's presence record (when one exists), refreshes `last_seen`, and
broadcasts the update to the other connections. -/
def handle_presence_update (st : MState) (ws : Conn) (document_id user_id : String)
    (message : PyVal) (ts : String) (fails : Conn → Bool) : MState × List Event :=
  let status := pyGet message "status" (.dict [])
  let st1 : MState :=
    match dictLookup (st.presence document_id) user_id with
    | none => st
    | some rec0 =>
        let rec1 := pyDictUpdate (pyDictUpdate rec0 status)
          (.dict [("last_seen", .str ts)])
        let pres1 := dictUpsert (st.presence document_id) user_id rec1
        { st with presence := upd st.presence document_id pres1 }
  broadcast st1 document_id
    (.dict [("type", .str "presence_update"), ("user_id", .str user_id),
            ("status", status), ("timestamp", .str ts)])
    [ws] [] fails

/-- `handle_get_presence`: replies to the sender only with the connected-user
snapshot. -/
def handle_get_presence (st : MState) (ws : Conn) (document_id _user_id : String)
    (_message : PyVal) (ts : String) (_fails : Conn → Bool) : MState × List Event :=
  (st, [Event.send ws (.dict
    [("type", .str "presence_info"),
     ("users", .list ((get_connected_users st document_id).map (fun p =>
        .dict (("user_id", .str p.1) ::
          (match p.2 with | .dict l => l | _ => []))))),
     ("timestamp", .str ts)])])

/-- The handler table built by `register_handlers()`: one handler per
message type, keyed by the five registered type strings. -/
inductive HandlerTag where
  | cursor_update | content_update | comment | presence_update | get_presence

/-- `self.handlers.get(message_type)`.  Only string keys are registered, so
any non-string `type` value has no handler. -/
def handlerFor : PyVal → Option HandlerTag
  | .str "cursor_update" => some .cursor_update
  | .str "content_update" => some .content_update
  | .str "comment" => some .comment
  | .str "presence_update" => some .presence_update
  | .str "get_presence" => some .get_presence
  | _ => none

/-- The `last_seen` refresh that `handle_message` performs before invoking a
handler, guarded on the presence record existing. -/
def touchPresence (st : MState) (document_id user_id : String) (ts : String) : MState :=
  match dictLookup (st.presence document_id) user_id with
  | none => st
  | some rec0 =>
      let rec1 := pyDictUpdate rec0 (.dict [("last_seen", .str ts)])
      let pres1 := dictUpsert (st.presence document_id) user_id rec1
      { st with presence := upd st.presence document_id pres1 }

/-- `ConnectionManager.handle_message(websocket, document_id, user_id, data)`.
`data` is the result of `json.loads` on the raw frame (`Except.error` for a
parse failure).  A missing or falsy `type` and an unknown `type` each get an
error reply to the sender only; otherwise the sender's `last_seen` is
refreshed and the unique registered handler runs.  A non-dict frame raises
`AttributeError` inside the `try`, which the source converts into the
generic internal-error reply. -/
def handle_message (st : MState) (ws : Conn) (document_id user_id : String)
    (data : Except Unit PyVal) (ts uuidHex : String) (fails : Conn → Bool) :
    MState × List Event :=
  match data with
  | .error _ => (st, [Event.send ws (.dict [("error", .str "Invalid JSON format")])])
  | .ok message =>
    match message with
    | .dict fields =>
      let message_type := (dictLookup fields "type").getD .null
      if !truthy message_type then
        (st, [Event.send ws (.dict [("error", .str "Message type is required")])])
      else
        match handlerFor message_type with
        | none =>
            (st, [Event.send ws (.dict
              [("error", .str ("Unknown message type: " ++ pyStr message_type))])])
        | some tag =>
            let st1 := touchPresence st document_id user_id ts
            match tag with
            | .cursor_update =>
                handle_cursor_update st1 ws document_id user_id message ts fails
            | .content_update =>
                handle_content_update st1 ws document_id user_id message ts fails
            | .comment =>
                handle_comment st1 ws document_id user_id message ts uuidHex fails
            | .presence_update =>
                handle_presence_update st1 ws document_id user_id message ts fails
            | .get_presence =>
                handle_get_presence st1 ws document_id user_id message ts fails
    | _ => (st, [Event.send ws (.dict [("error", .str "Internal server error")])])

/-!
## CPython `difflib`, as called by the document service

`DocumentCollaboration` calls `difflib.SequenceMatcher(None, old, new)` and
`difflib.unified_diff(..., lineterm="")` on lists of lines.  With
`isjunk=None` the junk set `bjunk` is empty, so the two junk-extension loops
of `find_longest_match` never run and the two non-junk extension loops test
plain equality; the `autojunk` heuristic removes "popular" elements (count
greater than `n // 100 + 1` when `n >= 200`) from `b2j` only. -/

/-- Python `str.splitlines` line-boundary characters (`\r\n` is handled as a
single boundary by the splitter itself). -/
def isLineBreak (c : Char) : Bool :=
  c = '\n' || c = '\r' || c = '\x0b' || c = '\x0c' ||
  c = '\x1c' || c = '\x1d' || c = '\x1e' || c = '\x85' ||
  c = '\u2028' || c = '\u2029'

/-- Worker for `str.splitlines([keepends])` over the character list; `acc`
holds the current line, reversed. -/
def splitlinesAux (keepends : Bool) : List Char → List Char → List String
  | acc, [] => if acc.isEmpty then [] else [String.mk acc.reverse]
  | acc, '\r' :: '\n' :: rest =>
      String.mk (acc.reverse ++ if keepends then ['\r', '\n'] else []) ::
        splitlinesAux keepends [] rest
  | acc, c :: rest =>
      if isLineBreak c then
        String.mk (acc.reverse ++ if keepends then [c] else []) ::
          splitlinesAux keepends [] rest
      else splitlinesAux keepends (c :: acc) rest

/-- Python `s.splitlines(keepends)`. -/
def splitlines (keepends : Bool) (s : String) : List String :=
  splitlinesAux keepends [] s.data

/-- The `autojunk` popularity test of `SequenceMatcher.__chain_b` (with
`isjunk=None` this is the only filter applied to `b2j`): an element is
dropped from `b2j` iff `len(b) >= 200` and it occurs more than
`len(b) // 100 + 1` times in `b`. -/
def popularJunk (b : List String) (x : String) : Bool :=
  decide (200 ≤ b.length) && decide (b.length / 100 + 1 < (b.filter (fun y => y == x)).length)

/-- A matching block `Match(a=i, b=j, size)` of `SequenceMatcher`. -/
structure Match3 where
  i : Nat
  j : Nat
  size : Nat
deriving DecidableEq

/-- Membership of `j` in the inner loop `for j in b2j.get(a[i], [])` of
`find_longest_match`, restricted by the `continue`/`break` guards to
`blo <= j < bhi`: exactly the in-range positions of `b` that equal `a[i]`
and are not autojunk-popular. -/
def flmGuard (a b : List String) (junk : String → Bool) (i j : Nat) : Bool :=
  b.getD j "" == a.getD i "" && !junk (b.getD j "")

/-- One step of the inner loop of `find_longest_match` at column `j`:
`k = newj2len[j] = j2len.get(j-1, 0) + 1`, and the best block is replaced
when `k > bestsize`.  The state is the `newj2len` map under construction
(total with default `0`) and the current best block. -/
def flmStep (a b : List String) (junk : String → Bool) (i : Nat)
    (prev : Nat → Nat) (st : (Nat → Nat) × Match3) (j : Nat) :
    (Nat → Nat) × Match3 :=
  if flmGuard a b junk i j then
    let k := (if j = 0 then 0 else prev (j - 1)) + 1
    let m2 := fun j2 => if j2 = j then k else st.1 j2
    if st.2.size < k then (m2, ⟨i + 1 - k, j + 1 - k, k⟩) else (m2, st.2)
  else st

/-- One row (`for i in range(alo, ahi)`) of the dynamic program of
`find_longest_match`: the inner loop over the candidate columns in
ascending order, starting from a fresh `newj2len`. -/
def flmRow (a b : List String) (junk : String → Bool) (blo bhi : Nat)
    (st : (Nat → Nat) × Match3) (i : Nat) : (Nat → Nat) × Match3 :=
  (List.range' blo (bhi - blo)).foldl (flmStep a b junk i st.1) ((fun _ => 0), st.2)

/-- The dynamic program of `find_longest_match` (rows `alo..ahi-1`), before
the extension loops.  The initial best block is `(alo, blo, 0)`. -/
def flmDP (a b : List String) (junk : String → Bool) (alo ahi blo bhi : Nat) : Match3 :=
  ((List.range' alo (ahi - alo)).foldl (flmRow a b junk blo bhi)
    ((fun _ => 0), ⟨alo, blo, 0⟩)).2

/-- The first extension loop of `find_longest_match` (with `bjunk` empty the
`not isbjunk(...)` conjunct is always true): extend the best block backwards
over equal elements.  The fuel bounds the iteration count; `besti - alo`
steps always suffice. -/
def extendBack (a b : List String) (alo blo : Nat) : Nat → Match3 → Match3
  | 0, m => m
  | fuel + 1, m =>
      if alo < m.i && blo < m.j && (a.getD (m.i - 1) "" == b.getD (m.j - 1) "") then
        extendBack a b alo blo fuel ⟨m.i - 1, m.j - 1, m.size + 1⟩
      else m

/-- The second extension loop: extend forwards over equal elements. -/
def extendFwd (a b : List String) (ahi bhi : Nat) : Nat → Match3 → Match3
  | 0, m => m
  | fuel + 1, m =>
      if m.i + m.size < ahi && m.j + m.size < bhi &&
          (a.getD (m.i + m.size) "" == b.getD (m.j + m.size) "") then
        extendFwd a b ahi bhi fuel ⟨m.i, m.j, m.size + 1⟩
      else m

/-- `SequenceMatcher.find_longest_match(alo, ahi, blo, bhi)` with
`isjunk=None`: the dynamic program followed by the two (non-junk) extension
loops; the junk extension loops are vacuous because `bjunk` is empty. -/
def find_longest_match (a b : List String) (junk : String → Bool)
    (alo ahi blo bhi : Nat) : Match3 :=
  let m := flmDP a b junk alo ahi blo bhi
  let m2 := extendBack a b alo blo m.i m
  extendFwd a b ahi bhi ahi m2

/-- The work-queue loop of `get_matching_blocks`.  The queue is kept as a
stack (head = the element `queue.pop()` removes); after a nonempty match the
right fragment is pushed after the left one, so it is popped first.  The
fuel bounds the iteration count; `2*(la+lb)+2` always suffices. -/
def gmbLoop (a b : List String) (junk : String → Bool) :
    Nat → List (Nat × Nat × Nat × Nat) → List Match3 → List Match3
  | 0, _, acc => acc
  | _ + 1, [], acc => acc
  | fuel + 1, (alo, ahi, blo, bhi) :: rest, acc =>
      let m := find_longest_match a b junk alo ahi blo bhi
      if m.size = 0 then gmbLoop a b junk fuel rest acc
      else
        let qL : List (Nat × Nat × Nat × Nat) :=
          if alo < m.i ∧ blo < m.j then [(alo, m.i, blo, m.j)] else []
        let qR : List (Nat × Nat × Nat × Nat) :=
          if m.i + m.size < ahi ∧ m.j + m.size < bhi then
            [(m.i + m.size, ahi, m.j + m.size, bhi)] else []
        gmbLoop a b junk fuel (qR ++ qL ++ rest) (acc ++ [m])

/-- The lexicographic order of Python tuple comparison used by
`matching_blocks.sort()`. -/
def blockLe (x y : Match3) : Prop :=
  x.i < y.i ∨ (x.i = y.i ∧ (x.j < y.j ∨ (x.j = y.j ∧ x.size ≤ y.size)))

instance : DecidableRel blockLe := fun x y => by
  unfold blockLe; infer_instance

instance : IsTotal Match3 blockLe :=
  ⟨fun x y => by unfold blockLe; omega⟩

instance : IsTrans Match3 blockLe :=
  ⟨fun x y z hxy hyz => by unfold blockLe at hxy hyz ⊢; omega⟩

/-- The adjacent-block collapsing loop at the end of `get_matching_blocks`,
carrying the current block `(i1, j1, k1)` (initially `(0, 0, 0)`). -/
def collapseBlocks : Nat → Nat → Nat → List Match3 → List Match3
  | i1, j1, k1, [] => if k1 ≠ 0 then [⟨i1, j1, k1⟩] else []
  | i1, j1, k1, m :: rest =>
      if i1 + k1 = m.i ∧ j1 + k1 = m.j then collapseBlocks i1 j1 (k1 + m.size) rest
      else (if k1 ≠ 0 then [⟨i1, j1, k1⟩] else []) ++ collapseBlocks m.i m.j m.size rest

/-- `SequenceMatcher.get_matching_blocks()`: run the queue to exhaustion,
sort the collected blocks, collapse adjacent ones, and append the
`(la, lb, 0)` sentinel. -/
def get_matching_blocks (a b : List String) : List Match3 :=
  let la := a.length
  let lb := b.length
  let blocks := gmbLoop a b (popularJunk b) (2 * (la + lb) + 2) [(0, la, 0, lb)] []
  collapseBlocks 0 0 0 (blocks.insertionSort blockLe) ++ [⟨la, lb, 0⟩]

/-- An opcode tag of `get_opcodes`. -/
inductive Tag where
  | replace | delete | insert | equal
deriving DecidableEq

/-- An opcode `(tag, i1, i2, j1, j2)`. -/
structure Opcode where
  tag : Tag
  i1 : Nat
  i2 : Nat
  j1 : Nat
  j2 : Nat
deriving DecidableEq

/-- The loop body of `get_opcodes` over the matching blocks, carrying the
cursor `(i, j)`. -/
def opcodesGo : Nat → Nat → List Match3 → List Opcode
  | _, _, [] => []
  | i, j, m :: rest =>
      let pre : List Opcode :=
        if i < m.i ∧ j < m.j then [⟨.replace, i, m.i, j, m.j⟩]
        else if i < m.i then [⟨.delete, i, m.i, j, m.j⟩]
        else if j < m.j then [⟨.insert, i, m.i, j, m.j⟩]
        else []
      let eqs : List Opcode :=
        if m.size ≠ 0 then [⟨.equal, m.i, m.i + m.size, m.j, m.j + m.size⟩] else []
      pre ++ eqs ++ opcodesGo (m.i + m.size) (m.j + m.size) rest

/-- `SequenceMatcher(None, a, b).get_opcodes()`. -/
def get_opcodes (a b : List String) : List Opcode :=
  opcodesGo 0 0 (get_matching_blocks a b)

/-- The head fixup of `get_grouped_opcodes`: trim a leading `equal` opcode
to at most `n` lines of context. -/
def fixHead (n : Nat) : List Opcode → List Opcode
  | [] => []
  | op :: rest =>
      if op.tag = .equal then
        ⟨op.tag, max op.i1 (op.i2 - n), op.i2, max op.j1 (op.j2 - n), op.j2⟩ :: rest
      else op :: rest

/-- The tail fixup of `get_grouped_opcodes`: trim a trailing `equal` opcode. -/
def fixLast (n : Nat) (codes : List Opcode) : List Opcode :=
  match codes.getLast? with
  | none => []
  | some op =>
      if op.tag = .equal then
        codes.dropLast ++
          [⟨op.tag, op.i1, min op.i2 (op.i1 + n), op.j1, min op.j2 (op.j1 + n)⟩]
      else codes

/-- `SequenceMatcher.get_grouped_opcodes(n)`: after the two fixups, split
the opcode list into groups at `equal` runs longer than `2*n`, dropping a
final group that is a single `equal` opcode. -/
def get_grouped_opcodes (a b : List String) (n : Nat) : List (List Opcode) :=
  let codes := get_opcodes a b
  let codes := if codes.isEmpty then [⟨.equal, 0, 1, 0, 1⟩] else codes
  let codes := fixLast n (fixHead n codes)
  let r := codes.foldl
    (fun (st : List (List Opcode) × List Opcode) op =>
      if op.tag = .equal ∧ 2 * n < op.i2 - op.i1 then
        (st.1 ++ [st.2 ++ [⟨.equal, op.i1, min op.i2 (op.i1 + n), op.j1, min op.j2 (op.j1 + n)⟩]],
         [⟨.equal, max op.i1 (op.i2 - n), op.i2, max op.j1 (op.j2 - n), op.j2⟩])
      else (st.1, st.2 ++ [op]))
    ([], [])
  r.1 ++
    (match r.2 with
     | [] => []
     | [op] => if op.tag = .equal then [] else [[op]]
     | _ => [r.2])

/-- `difflib._format_range_unified(start, stop)`. -/
def formatRangeUnified (start stop : Nat) : String :=
  let beginning := start + 1
  let length := stop - start
  if length = 1 then toString beginning
  else toString (if length = 0 then start else beginning) ++ "," ++ toString length

/-- Python `a[i:j]` on a list. -/
def pySlice {α : Type} (l : List α) (i j : Nat) : List α :=
  (l.take j).drop i

/-- The per-opcode body lines of one group of `unified_diff`. -/
def unifiedLines (a b : List String) (op : Opcode) : List String :=
  match op.tag with
  | .equal => (pySlice a op.i1 op.i2).map (fun line => " " ++ line)
  | .replace => (pySlice a op.i1 op.i2).map (fun line => "-" ++ line) ++
      (pySlice b op.j1 op.j2).map (fun line => "+" ++ line)
  | .delete => (pySlice a op.i1 op.i2).map (fun line => "-" ++ line)
  | .insert => (pySlice b op.j1 op.j2).map (fun line => "+" ++ line)

/-- `difflib.unified_diff(a, b, fromfile, tofile, fromfiledate, tofiledate,
n, lineterm)` as the list of generated lines (the file header appears once,
before the first group, and only when there is at least one group). -/
def unified_diff (a b : List String) (fromfile tofile fromfiledate tofiledate : String)
    (n : Nat) (lineterm : String) : List String :=
  let groups := get_grouped_opcodes a b n
  match groups with
  | [] => []
  | _ =>
    let fromdate := if fromfiledate ≠ "" then "\t" ++ fromfiledate else ""
    let todate := if tofiledate ≠ "" then "\t" ++ tofiledate else ""
    ["--- " ++ fromfile ++ fromdate ++ lineterm,
     "+++ " ++ tofile ++ todate ++ lineterm] ++
    groups.flatMap (fun g =>
      let first := g.headD ⟨.equal, 0, 0, 0, 0⟩
      let last := g.getLastD ⟨.equal, 0, 0, 0, 0⟩
      ("@@ -" ++ formatRangeUnified first.i1 last.i2 ++ " +" ++
        formatRangeUnified first.j1 last.j2 ++ " @@" ++ lineterm) ::
      g.flatMap (unifiedLines a b))

/-!
## `DocumentCollaboration` (`backend/app/services/document_service.py`)
-/

/-- The runtime error raised by evaluating the free name `size` inside the
generator expressions of `_calculate_changes` (the function unpacks the
opcodes as `op, i1, i2, j1, j2`, so `size` is not bound anywhere). -/
inductive PyError where
  | nameErrorSize
deriving DecidableEq

/-- The per-opcode-kind line counters of `_calculate_changes`. -/
structure Changes where
  added : Nat
  removed : Nat
  modified : Nat
deriving DecidableEq

/-- `sum(size for op, i1, i2, j1, j2 in opcodes if op == tag)`: the sum is
`0` when no opcode matches the tag (the generator yields nothing), and
otherwise evaluating the first yielded element looks up the unbound name
`size` and raises `NameError`. -/
def pySumSize (ops : List Opcode) : Except PyError Nat :=
  if ops.isEmpty then .ok 0 else .error .nameErrorSize

/-- `DocumentCollaboration._calculate_changes(old_content, new_content)`:
splits both contents into lines, takes the `SequenceMatcher` opcodes, and
builds the result dict; the `added` entry is evaluated first, then
`removed`, then `modified`, so a `NameError` from either generator aborts
the call. -/
def calculate_changes (old_content new_content : String) : Except PyError Changes := do
  let ops := get_opcodes (splitlines false old_content) (splitlines false new_content)
  let added ← pySumSize (ops.filter (fun op => op.tag = .insert))
  let removed ← pySumSize (ops.filter (fun op => op.tag = .delete))
  pure { added := added, removed := removed,
         modified := (ops.filter (fun op => op.tag = .replace)).length }

/-- A `DocumentVersion` dataclass instance: `version_id` stands for the
generated `str(uuid.uuid4())` and `timestamp` for
`datetime.utcnow().isoformat()`; the comment list starts empty. -/
structure DocumentVersion where
  content : String
  author : String
  version_id : String
  timestamp : String
  message : String

/-- The per-document state of `DocumentCollaboration`. -/
structure DocumentCollaboration where
  document_id : String
  versions : List DocumentVersion

/-- `DocumentCollaboration.add_version(content, author, message)`: builds a
fresh `DocumentVersion` (with the generated id and timestamp passed in
explicitly) and appends it to the version list. -/
def add_version (dc : DocumentCollaboration) (content author : String)
    (message : String) (vid ts : String) :
    DocumentCollaboration × DocumentVersion :=
  let v : DocumentVersion :=
    { content := content, author := author, version_id := vid,
      timestamp := ts, message := message }
  ({ dc with versions := dc.versions ++ [v] }, v)

/-- `DocumentCollaboration.get_version(version_id)`: the first stored
version with the given id. -/
def get_version (dc : DocumentCollaboration) (version_id : String) :
    Option DocumentVersion :=
  dc.versions.find? (fun v => v.version_id == version_id)

/-- The result dict of `get_version_diff` (either the structured error dict
or the diff payload with its `changes` sub-dict). -/
inductive DiffResult where
  | notFound
  | ok (old_version new_version diff : String) (changes : Changes)
deriving DecidableEq

/-- `DocumentCollaboration.get_version_diff(old_version_id, new_version_id)`:
resolves both versions (returning the structured error dict when either is
absent), joins the `unified_diff` lines (computed with the `version_…`
labels, the version timestamps, and `lineterm=""`), and evaluates
`_calculate_changes`, whose `NameError` propagates out of the call. -/
def get_version_diff (dc : DocumentCollaboration)
    (old_version_id new_version_id : String) : Except PyError DiffResult :=
  match get_version dc old_version_id, get_version dc new_version_id with
  | some ov, some nv =>
      let diff := String.intercalate "\n"
        (unified_diff (splitlines true ov.content) (splitlines true nv.content)
          ("version_" ++ old_version_id.take 8) ("version_" ++ new_version_id.take 8)
          ov.timestamp nv.timestamp 3 "")
      (calculate_changes ov.content nv.content).map
        (fun ch => DiffResult.ok old_version_id new_version_id diff ch)
  | _, _ => .ok .notFound

/-- The `changes.added` field of a successful `get_version_diff` result. -/
def diffAdded : Except PyError DiffResult → Option Nat
  | .ok (.ok _ _ _ ch) => some ch.added
  | _ => none

/-!
## The version-store endpoint
(`create_document_version` in `backend/app/api/endpoints/collaboration.py`)
-/

/-- A persisted `DocumentVersion` row as created by the endpoint. -/
structure DbVersion where
  document_id : String
  version_number : Nat
  content : String
  author_id : String
  message : String

/-- The rows of one document, in insertion order (the query filter
`DocumentVersion.document_id == document_id`). -/
def docVersions (rows : List DbVersion) (document_id : String) : List DbVersion :=
  rows.filter (fun v => v.document_id == document_id)

/-- `max` of a list of naturals (`0` for the empty list). -/
def maxNat (l : List Nat) : Nat := l.foldl max 0

/-- The `version_number` computed by the endpoint: the document's stored
version with the highest `version_number` (the query orders by
`version_number` descending and takes the first row), plus one; `1` when the
document has no versions. -/
def nextVersionNumber (rows : List DbVersion) (document_id : String) : Nat :=
  if (docVersions rows document_id).isEmpty then 1
  else maxNat ((docVersions rows document_id).map (fun v => v.version_number)) + 1

/-- A successful `create_document_version(document_id, version)` call (the
document exists and the caller is a collaborator): inserts a new row with
the computed `version_number`, leaving every existing row untouched. -/
def create_document_version (rows : List DbVersion)
    (document_id content author_id message : String) : List DbVersion × DbVersion :=
  let v : DbVersion :=
    { document_id := document_id, version_number := nextVersionNumber rows document_id,
      content := content, author_id := author_id, message := message }
  (rows ++ [v], v)

/-- The arguments of one version-creation request. -/
structure CreateCall where
  document_id : String
  content : String
  author_id : String
  message : String

/-- A finite sequence of successful `create_document_version` calls run
against the store. -/
def runCreates (calls : List CreateCall) (rows : List DbVersion) : List DbVersion :=
  calls.foldl (fun rs c =>
    (create_document_version rs c.document_id c.content c.author_id c.message).1) rows

/-!
## Claims C3 and C4: `_calculate_changes` and the diff scenario
-/

/-- The collaboration state for the C4 scenario: `add_version("d1","hello",
"alice")` then `add_version("d1","hello world","alice")`, with the two
generated uuids and timestamps written `v1`/`T1` and `v2`/`T2`. -/
def dcHello : DocumentCollaboration :=
  (add_version ((add_version ⟨"d1", []⟩ "hello" "alice" "" "v1" "T1").1)
    "hello world" "alice" "" "v2" "T2").1

/-- The collaboration state for the C3 failing input: a first version `"a"`
and a second version `"a\nb"` (one appended line). -/
def dcInsert : DocumentCollaboration :=
  (add_version ((add_version ⟨"d1", []⟩ "a" "alice" "" "v1" "T1").1)
    "a\nb" "alice" "" "v2" "T2").1

/-- C3: the claim says `changes.added` counts inserted lines, but the
generator expressions of `_calculate_changes` read the unbound name `size`,
so any diff containing an insert (or delete) opcode raises `NameError`
instead of producing counts: on old content `"a"` and new content `"a\nb"`
(exactly one inserted line, so the claim expects `added = 1`),
`_calculate_changes` and therefore `get_version_diff` raise. -/
theorem C3_calculate_changes_raises :
    calculate_changes "a" "a\nb" = .error .nameErrorSize ∧
    get_version_diff dcInsert "v1" "v2" = .error .nameErrorSize := by
  constructor <;> rfl

/-- C4 counterexample: on the two versions `"hello"` and `"hello world"`,
`get_version_diff` reports `changes.added = 0` (the changed line is a
single `replace` opcode, not an insertion), so the claimed `added = 1` is
false at this input. -/
theorem C4_counterexample :
    diffAdded (get_version_diff dcHello "v1" "v2") = some 0 ∧
    diffAdded (get_version_diff dcHello "v1" "v2") ≠ some 1 := by
  constructor
  · rfl
  · intro h
    rw [show diffAdded (get_version_diff dcHello "v1" "v2") = some 0 from rfl] at h
    simp at h

/-- C4, amended: on the scenario's two versions, `get_version_diff` reports
`changes = added 0, removed 0, modified 1`, and the diff text is exactly the
standard unified diff of the two one-line inputs. -/
theorem C4_amended :
    get_version_diff dcHello "v1" "v2" =
      .ok (.ok "v1" "v2"
        "--- version_v1\tT1\n+++ version_v2\tT2\n@@ -1 +1 @@\n-hello\n+hello world"
        ⟨0, 0, 1⟩) := by
  rfl

/-!
## Claim C1: gap-free sequence numbers
-/

theorem maxNat_append_singleton (l : List Nat) (x : Nat) :
    maxNat (l ++ [x]) = max (maxNat l) x := by
  unfold maxNat
  rw [List.foldl_append]
  rfl

theorem maxNat_range_one (k : Nat) : maxNat (List.range' 1 k) = k := by
  induction k with
  | zero => rfl
  | succ n ih =>
      rw [List.range'_concat, maxNat_append_singleton, ih]
      omega

theorem docVersions_append_self (rows : List DbVersion) (v : DbVersion) (d : String)
    (h : v.document_id = d) :
    docVersions (rows ++ [v]) d = docVersions rows d ++ [v] := by
  simp [docVersions, List.filter_append, h]

theorem docVersions_append_ne (rows : List DbVersion) (v : DbVersion) (d : String)
    (h : v.document_id ≠ d) :
    docVersions (rows ++ [v]) d = docVersions rows d := by
  simp [docVersions, List.filter_append, h]

/-- The reachability invariant of the endpoint's version store: for every
document, the stored version numbers read `1, 2, …, k` in insertion order. -/
def StoreInv (rows : List DbVersion) : Prop :=
  ∀ d, (docVersions rows d).map (fun v => v.version_number) =
    List.range' 1 (docVersions rows d).length

theorem storeInv_nil : StoreInv [] := by
  intro d
  rfl

theorem nextVersionNumber_of_inv (rows : List DbVersion) (h : StoreInv rows)
    (d : String) : nextVersionNumber rows d = (docVersions rows d).length + 1 := by
  unfold nextVersionNumber
  by_cases he : (docVersions rows d).isEmpty = true
  · rw [if_pos he]
    rw [List.isEmpty_iff] at he
    rw [he]
    rfl
  · rw [if_neg he]
    rw [h d, maxNat_range_one]

theorem storeInv_step (rows : List DbVersion) (h : StoreInv rows)
    (document_id content author_id message : String) :
    StoreInv (create_document_version rows document_id content author_id message).1 := by
  intro d
  unfold create_document_version
  simp only
  by_cases hde : document_id = d
  · rw [docVersions_append_self _ _ _ hde, List.map_append, h d, List.length_append,
      List.map_cons, List.map_nil]
    simp only
    rw [nextVersionNumber_of_inv rows h document_id, hde, List.length_singleton,
      List.range'_concat]
    simp [Nat.add_comm]
  · rw [docVersions_append_ne _ _ _ hde]
    exact h d

theorem storeInv_runCreates (calls : List CreateCall) (rows : List DbVersion)
    (h : StoreInv rows) : StoreInv (runCreates calls rows) := by
  induction calls generalizing rows with
  | nil => exact h
  | cons c cs ih =>
      exact ih _ (storeInv_step rows h c.document_id c.content c.author_id c.message)

theorem docVersions_length_runCreates (calls : List CreateCall)
    (rows : List DbVersion) (d : String) :
    (docVersions (runCreates calls rows) d).length =
      (docVersions rows d).length + calls.countP (fun c => c.document_id == d) := by
  induction calls generalizing rows with
  | nil => simp [runCreates]
  | cons c cs ih =>
      have hrun : runCreates (c :: cs) rows =
          runCreates cs (create_document_version rows c.document_id c.content
            c.author_id c.message).1 := rfl
      rw [hrun, ih, List.countP_cons]
      unfold create_document_version
      simp only
      by_cases hd : c.document_id = d
      · rw [docVersions_append_self _ _ _ hd, List.length_append]
        simp only [hd]
        simp
        omega
      · rw [docVersions_append_ne _ _ _ hd]
        simp [hd]

/-- C1: starting from an empty store, any finite sequence of successful
`create_document_version` calls leaves every document's versions carrying
`version_number`s exactly `1, 2, …, k` in creation order (strictly
increasing and gap-free, `k` the number of calls for that document); each
call computes its number as the prior maximum plus one (`1` when the
document has no versions) and only appends, never overwriting an existing
row; and the in-memory `DocumentCollaboration.add_version` likewise only
appends to the version list. -/
theorem C1_sequence_numbers :
    (∀ (calls : List CreateCall) (d : String),
      (docVersions (runCreates calls []) d).map (fun v => v.version_number) =
        List.range' 1 (calls.countP (fun c => c.document_id == d)))
    ∧ (∀ (rows : List DbVersion) (d content author message : String),
        (create_document_version rows d content author message).1 =
          rows ++ [(create_document_version rows d content author message).2]
        ∧ (create_document_version rows d content author message).2.version_number =
            nextVersionNumber rows d)
    ∧ (∀ (dc : DocumentCollaboration) (content author message vid ts : String),
        (add_version dc content author message vid ts).1.versions =
          dc.versions ++ [(add_version dc content author message vid ts).2]) := by
  refine ⟨?_, ?_, ?_⟩
  · intro calls d
    have hinv := storeInv_runCreates calls [] storeInv_nil d
    have hlen := docVersions_length_runCreates calls [] d
    rw [hinv, hlen]
    rw [show (docVersions ([] : List DbVersion) d).length = 0 from rfl, Nat.zero_add]
  · intro rows d content author message
    exact ⟨rfl, rfl⟩
  · intro dc content author message vid ts
    rfl

/-!
## Dictionary and registry lemmas
-/

theorem upd_self {α : Type} (f : String → α) (k : String) (v : α) :
    upd f k v k = v := by
  simp [upd]

theorem upd_ne {α : Type} (f : String → α) (k k2 : String) (v : α)
    (h : k2 ≠ k) : upd f k v k2 = f k2 := by
  simp [upd, h]

theorem dictLookup_nil {α : Type} (k : String) :
    dictLookup ([] : List (String × α)) k = none := rfl

theorem dictLookup_cons {α : Type} (p : String × α) (rest : List (String × α))
    (k : String) :
    dictLookup (p :: rest) k = if p.1 == k then some p.2 else dictLookup rest k := by
  by_cases h : (p.1 == k) = true <;> simp [dictLookup, List.find?_cons, h]

theorem dictDel_cons {α : Type} (p : String × α) (rest : List (String × α))
    (k : String) :
    dictDel (p :: rest) k = if p.1 = k then dictDel rest k else p :: dictDel rest k := by
  by_cases h : p.1 = k <;> simp [dictDel, List.filter_cons, h]

theorem dictLookup_del_self {α : Type} (l : List (String × α)) (k : String) :
    dictLookup (dictDel l k) k = none := by
  induction l with
  | nil => rfl
  | cons p rest ih =>
      rw [dictDel_cons]
      by_cases hp : p.1 = k
      · simpa [hp] using ih
      · rw [if_neg hp, dictLookup_cons, if_neg (by simp [hp])]
        exact ih

theorem dictLookup_del_ne {α : Type} (l : List (String × α)) (k k2 : String)
    (h : k2 ≠ k) : dictLookup (dictDel l k) k2 = dictLookup l k2 := by
  induction l with
  | nil => rfl
  | cons p rest ih =>
      rw [dictDel_cons]
      by_cases hp : p.1 = k
      · rw [if_pos hp, dictLookup_cons, if_neg (by simp [hp]; exact fun he => (h he.symm).elim)]
        exact ih
      · rw [if_neg hp, dictLookup_cons, dictLookup_cons, ih]

theorem dictLookup_mapKey_ne {α : Type} (l : List (String × α)) (k k2 : String)
    (v : α) (h : k2 ≠ k) :
    dictLookup (l.map (fun p => if p.1 == k then (k, v) else p)) k2 = dictLookup l k2 := by
  induction l with
  | nil => rfl
  | cons p rest ih =>
      rw [List.map_cons]
      by_cases hp : p.1 = k
      · rw [if_pos (by simp [hp]), dictLookup_cons, dictLookup_cons]
        rw [if_neg (by simp; exact fun he => (h he.symm).elim),
          if_neg (by simp [hp]; exact fun he => (h he.symm).elim)]
        exact ih
      · rw [if_neg (by simp [hp]), dictLookup_cons, dictLookup_cons, ih]

theorem dictLookup_upsert {α : Type} (l : List (String × α)) (k k2 : String) (v : α) :
    dictLookup (dictUpsert l k v) k2 = if k2 = k then some v else dictLookup l k2 := by
  unfold dictUpsert
  by_cases hk : l.any (fun p => p.1 == k) = true
  · rw [if_pos hk]
    by_cases he : k2 = k
    · subst he
      induction l with
      | nil => simp at hk
      | cons p rest ih =>
          rw [List.map_cons]
          by_cases hp : p.1 = k2
          · rw [if_pos (by simp [hp]), dictLookup_cons, if_pos (by simp)]
            simp
          · rw [if_neg (by simp [hp]), dictLookup_cons, if_neg (by simp [hp])]
            have hrest : rest.any (fun p => p.1 == k2) = true := by
              simpa [List.any_cons, hp] using hk
            simpa using ih hrest
    · rw [if_neg he]
      exact dictLookup_mapKey_ne l k k2 v he
  · rw [if_neg hk]
    have hnone : dictLookup l k = none := by
      unfold dictLookup
      rw [List.find?_eq_none.2]
      · rfl
      · intro p hp hbeq
        exact hk (List.any_eq_true.2 ⟨p, hp, hbeq⟩)
    have hfind : List.find? (fun p => p.1 == k) l = none := by
      apply List.find?_eq_none.2
      intro p hp hbeq
      exact hk (List.any_eq_true.2 ⟨p, hp, hbeq⟩)
    by_cases he : k2 = k
    · subst he
      rw [if_pos rfl]
      unfold dictLookup
      rw [List.find?_append, hfind]
      simp [List.find?]
    · rw [if_neg he]
      unfold dictLookup
      rw [List.find?_append]
      have hkk2 : ((k, v).1 == k2) = false := by
        simp
        exact fun hx => (he hx.symm).elim
      have h2 : List.find? (fun p => p.1 == k2) [(k, v)] = none := by
        simp [List.find?, hkk2]
      rw [h2]
      cases l.find? (fun p => p.1 == k2) <;> rfl

theorem mem_setAdd (l : List String) (x y : String) :
    y ∈ setAdd l x ↔ y ∈ l ∨ y = x := by
  unfold setAdd
  by_cases h : x ∈ l
  · rw [if_pos h]
    constructor
    · exact Or.inl
    · rintro (hy | hy)
      · exact hy
      · exact hy ▸ h
  · rw [if_neg h]
    simp

theorem mem_setDiscard (l : List String) (x y : String) :
    y ∈ setDiscard l x ↔ y ∈ l ∧ y ≠ x := by
  simp [setDiscard]

/-!
## Broadcast characterization
-/

/-- The connections `broadcast` actually delivers to: not excluded and not
failing. -/
def bcKeep (exclude : List Conn) (exclude_users : List String) (fails : Conn → Bool)
    (p : String × Conn) : Bool :=
  !decide (p.2 ∈ exclude ∨ p.1 ∈ exclude_users) && !fails p.2

/-- The connections `broadcast` schedules for disconnect: not excluded but
failing. -/
def bcFail (exclude : List Conn) (exclude_users : List String) (fails : Conn → Bool)
    (p : String × Conn) : Bool :=
  !decide (p.2 ∈ exclude ∨ p.1 ∈ exclude_users) && fails p.2

theorem broadcast_fold (message : PyVal)
    (exclude : List Conn) (exclude_users : List String) (fails : Conn → Bool)
    (l : List (String × Conn)) (e0 : List Event) (d0 : List (String × Conn)) :
    l.foldl
      (fun (acc : List Event × List (String × Conn)) p =>
        if p.2 ∈ exclude ∨ p.1 ∈ exclude_users then acc
        else if fails p.2 then (acc.1, acc.2 ++ [p])
        else (acc.1 ++ [Event.send p.2 message], acc.2))
      (e0, d0) =
    (e0 ++ (l.filter (bcKeep exclude exclude_users fails)).map
        (fun p => Event.send p.2 message),
     d0 ++ l.filter (bcFail exclude exclude_users fails)) := by
  induction l generalizing e0 d0 with
  | nil => simp
  | cons p rest ih =>
      rw [List.foldl_cons, List.filter_cons, List.filter_cons]
      by_cases hex : p.2 ∈ exclude ∨ p.1 ∈ exclude_users
      · rw [if_pos hex]
        have hk : bcKeep exclude exclude_users fails p = false := by
          simp [bcKeep, hex]
        have hf : bcFail exclude exclude_users fails p = false := by
          simp [bcFail, hex]
        rw [hk, hf]
        simpa using ih e0 d0
      · rw [if_neg hex]
        rcases hfp : fails p.2 with _ | _
        · have hk : bcKeep exclude exclude_users fails p = true := by
            simp [bcKeep, hex, hfp]
          have hf : bcFail exclude exclude_users fails p = false := by
            simp [bcFail, hex, hfp]
          rw [hk, hf]
          simp only [if_true, if_false]
          rw [ih]
          simp
        · have hk : bcKeep exclude exclude_users fails p = false := by
            simp [bcKeep, hex, hfp]
          have hf : bcFail exclude exclude_users fails p = true := by
            simp [bcFail, hex, hfp]
          rw [hk, hf]
          simp only [if_true, if_false]
          rw [ih]
          simp

/-- `broadcast` delivers the message, in registration order, to exactly the
connections that are not excluded and whose send does not fail, and then
disconnects exactly the non-excluded failing ones. -/
theorem broadcast_spec (st : MState) (document_id : String) (message : PyVal)
    (exclude : List Conn) (exclude_users : List String) (fails : Conn → Bool) :
    broadcast st document_id message exclude exclude_users fails =
      (((st.active document_id).filter (bcFail exclude exclude_users fails)).foldl
         (fun s p => disconnect s p.2 document_id (some p.1)) st,
       ((st.active document_id).filter (bcKeep exclude exclude_users fails)).map
         (fun p => Event.send p.2 message)) := by
  have h := broadcast_fold message exclude exclude_users fails
    (st.active document_id) [] []
  simp only [broadcast]
  rw [h]
  simp

/-!
## Claim C9: unknown message type
-/

/-- C9: a parsed frame whose truthy `type` string has no registered handler
(for example `bogus`) gets exactly one reply, to the sender, reading
`Unknown message type: <type>`; the registry, subscription and presence
state are returned untouched (so the connection stays registered and a
subsequent frame is dispatched from the same state), and nothing is
broadcast. -/
theorem C9_unknown_type (st : MState) (ws : Conn) (document_id user_id : String)
    (fields : List (String × PyVal)) (t : String) (ts uuidHex : String)
    (fails : Conn → Bool)
    (htype : dictLookup fields "type" = some (.str t))
    (ht : t ≠ "")
    (hnone : handlerFor (.str t) = none) :
    handle_message st ws document_id user_id (.ok (.dict fields)) ts uuidHex fails =
      (st, [Event.send ws (.dict
        [("error", .str ("Unknown message type: " ++ t))])]) := by
  have htr : truthy (PyVal.str t) = true := by simp [truthy, ht]
  unfold handle_message
  simp only [htype, Option.getD_some, htr, Bool.not_true, if_false, hnone, pyStr]
  rfl

/-- Witness for C9 at the spec's scenario frame. -/
theorem C9_unknown_type_witness :
    handle_message initState 1 "d1" "alice"
        (.ok (.dict [("type", .str "bogus")])) "T" "u" (fun _ => false) =
      (initState, [Event.send 1 (.dict
        [("error", .str "Unknown message type: bogus")])]) :=
  C9_unknown_type initState 1 "d1" "alice" [("type", .str "bogus")] "bogus" "T" "u"
    (fun _ => false) rfl (by decide) rfl

/-!
## Claim C10: disconnect with an explicit user id
-/

/-- C10: `disconnect` with an explicit (non-empty) `user_id` never compares
the supplied handle against the registered one — the result is the same for
any handle — and after a re-connect has replaced the pair's handle, the
gateway's cleanup call carrying the superseded handle and the explicit user
id still removes the pair's current registration, subscription entry and
presence record. -/
theorem C10_disconnect_ignores_handle (st : MState) (ws ws2 : Conn)
    (document_id u : String) (hu : u ≠ "") (c1 c2 : Conn) (now now2 : String) :
    disconnect st ws document_id (some u) = disconnect st ws2 document_id (some u)
    ∧ (let st2 := (connect (connect st c1 document_id (some u) now).1
         c2 document_id (some u) now2).1
       let st3 := disconnect st2 c1 document_id (some u)
       dictLookup (st3.active document_id) u = none
       ∧ document_id ∉ st3.subs u
       ∧ dictLookup (st3.presence document_id) u = none) := by
  constructor
  · unfold disconnect resolveUser
    simp [hu]
  · intro st2 st3
    have hst3 : st3 = MState.mk
        (upd st2.active document_id (dictDel (st2.active document_id) u))
        (upd st2.subs u (setDiscard (st2.subs u) document_id))
        (upd st2.presence document_id (dictDel (st2.presence document_id) u)) := by
      show disconnect st2 c1 document_id (some u) = _
      unfold disconnect resolveUser
      simp [hu]
      rfl
    rw [hst3]
    refine ⟨?_, ?_, ?_⟩
    · show dictLookup
        (upd st2.active document_id (dictDel (st2.active document_id) u) document_id) u
          = none
      rw [upd_self]
      exact dictLookup_del_self _ _
    · show document_id ∉ upd st2.subs u (setDiscard (st2.subs u) document_id) u
      rw [upd_self, mem_setDiscard]
      simp
    · show dictLookup
        (upd st2.presence document_id (dictDel (st2.presence document_id) u) document_id) u
          = none
      rw [upd_self]
      exact dictLookup_del_self _ _

/-- Witness for C10 at a concrete two-connect scenario. -/
theorem C10_disconnect_ignores_handle_witness :
    disconnect initState 1 "d1" (some "alice") = disconnect initState 2 "d1" (some "alice")
    ∧ (let st2 := (connect (connect initState 1 "d1" (some "alice") "T1").1
         2 "d1" (some "alice") "T2").1
       let st3 := disconnect st2 1 "d1" (some "alice")
       dictLookup (st3.active "d1") "alice" = none
       ∧ "d1" ∉ st3.subs "alice"
       ∧ dictLookup (st3.presence "d1") "alice" = none) :=
  C10_disconnect_ignores_handle initState 1 2 "d1" "alice" (by decide) 1 2 "T1" "T2"

/-!
## Claim C6: the reverse index stays consistent with the forward index
-/

/-- The registry states reachable by any interleaving of `connect`,
`disconnect` and `broadcast` (whose send failures trigger internal
disconnects) from the initial empty registry. -/
inductive Reachable : MState → Prop where
  | init : Reachable initState
  | connect (st : MState) (ws : Conn) (document_id : String)
      (user_id : Option String) (now : String) :
      Reachable st → Reachable (connect st ws document_id user_id now).1
  | disconnect (st : MState) (ws : Conn) (document_id : String)
      (user_id : Option String) :
      Reachable st → Reachable (disconnect st ws document_id user_id)
  | broadcast (st : MState) (document_id : String) (message : PyVal)
      (exclude : List Conn) (exclude_users : List String) (fails : Conn → Bool) :
      Reachable st → Reachable (broadcast st document_id message exclude
        exclude_users fails).1

/-- The two indexes agree: a document is in a user's subscription set
exactly when the forward index holds an entry for that user under the
document. -/
def IndexesAgree (st : MState) : Prop :=
  ∀ u d, d ∈ st.subs u ↔ (dictLookup (st.active d) u).isSome = true

theorem indexesAgree_init : IndexesAgree initState := by
  intro u d
  simp [initState, dictLookup]

theorem indexesAgree_connect (st : MState) (ws : Conn) (document_id : String)
    (user_id : Option String) (now : String) (h : IndexesAgree st) :
    IndexesAgree (connect st ws document_id user_id now).1 := by
  intro u d
  unfold connect
  simp only
  by_cases hu : u = (match user_id with
    | none => "anonymous_" ++ toString ws
    | some u2 => if u2 = "" then "anonymous_" ++ toString ws else u2)
  · rw [← hu]
    rw [upd_self]
    by_cases hd : d = document_id
    · subst hd
      rw [upd_self, mem_setAdd, dictLookup_upsert, if_pos rfl]
      simp
    · rw [upd_ne _ _ _ _ hd, mem_setAdd]
      constructor
      · rintro (hx | hx)
        · exact (h u d).1 hx
        · exact (hd hx).elim
      · intro hx
        exact Or.inl ((h u d).2 hx)
  · rw [upd_ne _ _ _ _ hu]
    by_cases hd : d = document_id
    · subst hd
      rw [upd_self, dictLookup_upsert, if_neg hu]
      exact h u d
    · rw [upd_ne _ _ _ _ hd]
      exact h u d

theorem indexesAgree_removeUser (st : MState) (document_id u0 : String)
    (h : IndexesAgree st) : IndexesAgree (removeUser st document_id u0) := by
  intro u d
  unfold removeUser
  simp only
  by_cases hu : u = u0
  · subst hu
    rw [upd_self]
    by_cases hd : d = document_id
    · subst hd
      rw [upd_self, mem_setDiscard, dictLookup_del_self]
      simp
    · rw [upd_ne _ _ _ _ hd, mem_setDiscard]
      constructor
      · rintro ⟨hx, _⟩
        exact (h u d).1 hx
      · intro hx
        exact ⟨(h u d).2 hx, hd⟩
  · rw [upd_ne _ _ _ _ hu]
    by_cases hd : d = document_id
    · subst hd
      rw [upd_self, dictLookup_del_ne _ _ _ hu]
      exact h u d
    · rw [upd_ne _ _ _ _ hd]
      exact h u d

theorem indexesAgree_disconnect (st : MState) (ws : Conn) (document_id : String)
    (user_id : Option String) (h : IndexesAgree st) :
    IndexesAgree (disconnect st ws document_id user_id) := by
  unfold disconnect
  rcases resolveUser st ws document_id user_id with _ | u0
  · exact h
  · exact indexesAgree_removeUser st document_id u0 h

theorem indexesAgree_foldl_disconnect (document_id : String)
    (l : List (String × Conn)) :
    ∀ st, IndexesAgree st →
      IndexesAgree (l.foldl (fun s p => disconnect s p.2 document_id (some p.1)) st) := by
  induction l with
  | nil => exact fun st h => h
  | cons p rest ih =>
      intro st h
      exact ih _ (indexesAgree_disconnect st p.2 document_id (some p.1) h)

/-- C6: in every reachable registry state, the `user_subscriptions` reverse
index agrees with the `active_connections` forward index — `connect`,
`disconnect`, and the disconnects a failing `broadcast` triggers always
update the two together. -/
theorem C6_indexes_agree (st : MState) (h : Reachable st) : IndexesAgree st := by
  induction h with
  | init => exact indexesAgree_init
  | connect st2 ws document_id user_id now _ ih =>
      exact indexesAgree_connect st2 ws document_id user_id now ih
  | disconnect st2 ws document_id user_id _ ih =>
      exact indexesAgree_disconnect st2 ws document_id user_id ih
  | broadcast st2 document_id message exclude exclude_users fails _ ih =>
      rw [broadcast_spec]
      exact indexesAgree_foldl_disconnect document_id _ st2 ih

/-- Witness for C6 at a concrete reachable state (a connect followed by a
broadcast with a failing recipient). -/
theorem C6_indexes_agree_witness :
    IndexesAgree (broadcast (connect initState 1 "d1" (some "alice") "T").1
      "d1" (.str "m") [] [] (fun _ => true)).1 :=
  C6_indexes_agree _
    (Reachable.broadcast _ "d1" (.str "m") [] [] (fun _ => true)
      (Reachable.connect initState 1 "d1" (some "alice") "T" Reachable.init))

/-!
## Claim C5: one failing connection during broadcast
-/

theorem filter_eq_singleton {α : Type} [DecidableEq α] (l : List α) (p : α → Bool)
    (x : α) (hnd : l.Nodup) (hx : x ∈ l) (hpx : p x = true)
    (hothers : ∀ y ∈ l, y ≠ x → p y = false) : l.filter p = [x] := by
  induction l with
  | nil => cases hx
  | cons y rest ih =>
      rw [List.filter_cons]
      rcases List.nodup_cons.1 hnd with ⟨hyr, hndr⟩
      by_cases hyx : y = x
      · subst hyx
        rw [if_pos hpx]
        have hrest : rest.filter p = [] := by
          apply List.filter_eq_nil_iff.2
          intro z hz
          have hzx : z ≠ y := fun he => hyr (he ▸ hz)
          simp [hothers z (List.mem_cons_of_mem y hz) hzx]
        rw [hrest]
      · have hxr : x ∈ rest := by
          rcases List.mem_cons.1 hx with he | hr
          · exact ((hyx he.symm).elim)
          · exact hr
        have hpy : p y = false := hothers y (List.mem_cons_self y rest) hyx
        rw [if_neg (by simp [hpy])]
        exact ih hndr hxr (fun z hz hzx =>
          hothers z (List.mem_cons_of_mem y hz) hzx)

theorem dictDel_map_fst {α : Type} (l : List (String × α)) (k : String) :
    (dictDel l k).map Prod.fst = (l.map Prod.fst).filter (fun u => u ≠ k) := by
  induction l with
  | nil => rfl
  | cons p rest ih =>
      rw [dictDel_cons]
      by_cases hp : p.1 = k
      · rw [if_pos hp, List.map_cons, List.filter_cons, if_neg (by simp [hp])]
        exact ih
      · rw [if_neg hp, List.map_cons, List.map_cons, List.filter_cons,
          if_pos (by simp [hp])]
        rw [ih]

/-- C5: when sending to exactly one registered connection `(u0, c0)` fails
(and that connection is not excluded), `broadcast` still delivers the
message to every other non-excluded connection of the document — the
failure is absorbed, never propagated — and the cleanup removes exactly the
failing pair: its forward-index entry and presence record disappear, so a
subsequent `get_connected_users` omits exactly `u0`, while every other
document's tables and every other user's subscriptions are untouched. -/
theorem C5_broadcast_one_failure (st : MState) (document_id : String)
    (message : PyVal) (exclude : List Conn) (exclude_users : List String)
    (fails : Conn → Bool) (u0 : String) (c0 : Conn)
    (hmem : (u0, c0) ∈ st.active document_id)
    (hfail : fails c0 = true)
    (hothers : ∀ p ∈ st.active document_id, p ≠ (u0, c0) → fails p.2 = false)
    (hnotex : c0 ∉ exclude) (hnotexu : u0 ∉ exclude_users)
    (hnd : ((st.active document_id).map Prod.fst).Nodup)
    (hu0 : u0 ≠ "") :
    (∀ p ∈ st.active document_id, p.2 ∉ exclude → p.1 ∉ exclude_users →
      p ≠ (u0, c0) →
      Event.send p.2 message ∈
        (broadcast st document_id message exclude exclude_users fails).2)
    ∧ (broadcast st document_id message exclude exclude_users fails).1.active
        document_id = dictDel (st.active document_id) u0
    ∧ (get_connected_users
        (broadcast st document_id message exclude exclude_users fails).1
        document_id).map Prod.fst =
      ((get_connected_users st document_id).map Prod.fst).filter (fun u => u ≠ u0)
    ∧ (∀ d, d ≠ document_id →
        (broadcast st document_id message exclude exclude_users fails).1.active d
          = st.active d
        ∧ (broadcast st document_id message exclude exclude_users fails).1.presence d
          = st.presence d)
    ∧ (∀ u, u ≠ u0 →
        (broadcast st document_id message exclude exclude_users fails).1.subs u
          = st.subs u) := by
  have hfilter : (st.active document_id).filter
      (bcFail exclude exclude_users fails) = [(u0, c0)] := by
    apply filter_eq_singleton _ _ _ (List.Nodup.of_map _ hnd) hmem
    · simp [bcFail, hnotex, hnotexu, hfail]
    · intro p hp hpne
      simp [bcFail, hothers p hp hpne]
  have hstate : (broadcast st document_id message exclude exclude_users fails).1
      = removeUser st document_id u0 := by
    rw [broadcast_spec]
    simp only [hfilter, List.foldl_cons, List.foldl_nil]
    unfold disconnect resolveUser
    simp [hu0]
  refine ⟨?_, ?_, ?_, ?_, ?_⟩
  · intro p hp hex hexu hne
    rw [broadcast_spec]
    simp only
    have hk : bcKeep exclude exclude_users fails p = true := by
      simp [bcKeep, hex, hexu, hothers p hp hne]
    exact List.mem_map.2 ⟨p, List.mem_filter.2 ⟨hp, hk⟩, rfl⟩
  · rw [hstate]
    unfold removeUser
    simp only
    rw [upd_self]
  · rw [hstate]
    unfold removeUser get_connected_users
    simp only
    rw [upd_self]
    exact dictDel_map_fst _ _
  · intro d hd
    rw [hstate]
    unfold removeUser
    simp only
    exact ⟨upd_ne _ _ _ _ hd, upd_ne _ _ _ _ hd⟩
  · intro u hu
    rw [hstate]
    unfold removeUser
    simp only
    exact upd_ne _ _ _ _ hu

/-- Witness for C5: two users on one document, the second one's send fails. -/
theorem C5_broadcast_one_failure_witness :
    (let st := (connect (connect initState 1 "d1" (some "alice") "T").1
        2 "d1" (some "bob") "T").1
     let fails := fun c => decide (c = 2)
     (∀ p ∈ st.active "d1", p.2 ∉ ([] : List Conn) → p.1 ∉ ([] : List String) →
        p ≠ ("bob", 2) →
        Event.send p.2 (.str "m") ∈ (broadcast st "d1" (.str "m") [] [] fails).2)
     ∧ (broadcast st "d1" (.str "m") [] [] fails).1.active "d1"
         = dictDel (st.active "d1") "bob"
     ∧ (get_connected_users (broadcast st "d1" (.str "m") [] [] fails).1 "d1").map
         Prod.fst =
       ((get_connected_users st "d1").map Prod.fst).filter (fun u => u ≠ "bob")
     ∧ (∀ d, d ≠ "d1" →
         (broadcast st "d1" (.str "m") [] [] fails).1.active d = st.active d
         ∧ (broadcast st "d1" (.str "m") [] [] fails).1.presence d = st.presence d)
     ∧ (∀ u, u ≠ "bob" →
         (broadcast st "d1" (.str "m") [] [] fails).1.subs u = st.subs u)) := by
  intro st fails
  exact C5_broadcast_one_failure st "d1" (.str "m") [] [] fails "bob" 2
    (by decide) (by decide)
    (by intro p hp hne
        have hp2 : p ∈ [("alice", 1), ("bob", 2)] := by
          simpa [st, connect, initState, dictUpsert, upd] using hp
        rcases List.mem_cons.1 hp2 with he | hr
        · simp [he, fails]
        · rcases List.mem_cons.1 hr with he2 | hnil
          · exact (hne he2).elim
          · cases hnil)
    (by decide) (by decide)
    (by decide) (by decide)

/-!
## Claim C2: `content_update` dispatch
-/

/-- A frame whose `changes` and `version` fields are both present, with an
empty `changes` list. -/
def msgEmptyChanges : PyVal :=
  .dict [("type", .str "content_update"), ("changes", .list []), ("version", .int 5)]

/-- Two users `A` (handle 1) and `B` (handle 2) connected to `d1`. -/
def stAB : MState :=
  (connect (connect initState 1 "d1" (some "A") "T").1 2 "d1" (some "B") "T").1

/-- C2 counterexample: a `content_update` whose `changes` and `version`
fields are both present (but `changes` is the empty list) is rejected —
the sender alone receives the missing-fields error, nothing is broadcast to
`B`, and the state is unchanged — although the claim requires a broadcast
whenever both fields are present.  The source tests `if not changes`,
i.e. truthiness, not presence. -/
theorem C2_counterexample :
    (dictLookup [("type", PyVal.str "content_update"), ("changes", PyVal.list []),
      ("version", PyVal.int 5)] "changes").isSome = true
    ∧ (dictLookup [("type", PyVal.str "content_update"), ("changes", PyVal.list []),
        ("version", PyVal.int 5)] "version").isSome = true
    ∧ (handle_content_update stAB 1 "d1" "A" msgEmptyChanges "T2"
        (fun _ => false)).2 = [Event.send 1 contentUpdateError]
    ∧ (handle_content_update stAB 1 "d1" "A" msgEmptyChanges "T2"
        (fun _ => false)).1 = stAB := by
  exact ⟨rfl, rfl, rfl, rfl⟩

/-- C2, amended ("missing" tightened to "missing or falsy"): a dispatched
`content_update` with truthy `changes` and non-`None` `version` is broadcast
(as `type/user_id/changes/version/timestamp`) to every other connection on
the document whose send does not fail — never to the sender — and the
sender alone then receives the `content_update_ack` carrying the same
`version`, as the final event; with falsy or missing `changes`, or missing
or `None` `version`, the sender alone receives the error reply and nothing
is broadcast. -/
theorem C2_amended (st : MState) (ws : Conn) (document_id user_id : String)
    (message : PyVal) (ts : String) (fails : Conn → Bool) :
    (truthy (pyGet message "changes" (.list [])) = true →
     isNull (pyGet message "version" .null) = false →
     (∀ p ∈ st.active document_id, p.2 ≠ ws → fails p.2 = false →
        Event.send p.2 (contentUpdatePayload user_id
          (pyGet message "changes" (.list []))
          (pyGet message "version" .null) ts) ∈
        (handle_content_update st ws document_id user_id message ts fails).2)
     ∧ (handle_content_update st ws document_id user_id message ts fails).2.getLast?
         = some (Event.send ws
             (contentUpdateAck (pyGet message "version" .null) ts))
     ∧ (∀ e ∈ (handle_content_update st ws document_id user_id message ts fails).2,
          Event.to e = ws →
          e = Event.send ws (contentUpdateAck (pyGet message "version" .null) ts)))
    ∧ (truthy (pyGet message "changes" (.list [])) = false ∨
        isNull (pyGet message "version" .null) = true →
       handle_content_update st ws document_id user_id message ts fails
         = (st, [Event.send ws contentUpdateError])) := by
  constructor
  · intro hch hv
    have hcond : (!truthy (pyGet message "changes" (.list [])) ||
        isNull (pyGet message "version" .null)) = false := by
      rw [hch, hv]
      rfl
    unfold handle_content_update
    simp only [hcond, Bool.false_eq_true, if_false]
    rw [broadcast_spec]
    simp only
    refine ⟨?_, ?_, ?_⟩
    · intro p hp hpw hpf
      apply List.mem_append_left
      have hk : bcKeep [ws] [] fails p = true := by
        simp [bcKeep, hpw, hpf]
      exact List.mem_map.2 ⟨p, List.mem_filter.2 ⟨hp, hk⟩, rfl⟩
    · exact List.getLast?_concat _
    · intro e he hews
      rcases List.mem_append.1 he with hbc | hack
      · rcases List.mem_map.1 hbc with ⟨p, hpf, hpe⟩
        have hk := (List.mem_filter.1 hpf).2
        have hpw : p.2 ≠ ws := by
          intro he2
          simp [bcKeep, he2] at hk
        rw [← hpe] at hews
        exact (hpw hews).elim
      · rcases List.mem_singleton.1 hack with rfl
        rfl
  · intro hbad
    have hcond : (!truthy (pyGet message "changes" (.list [])) ||
        isNull (pyGet message "version" .null)) = true := by
      rcases hbad with hb | hb <;> simp [hb]
    unfold handle_content_update
    simp only [hcond, if_true]

/-- Witness for C2 (amended) at a concrete two-user state and a valid
update frame. -/
theorem C2_amended_witness :
    (let message : PyVal := .dict [("type", .str "content_update"),
      ("changes", .list [.str "x"]), ("version", .int 5)]
     (truthy (pyGet message "changes" (.list [])) = true →
      isNull (pyGet message "version" .null) = false →
      (∀ p ∈ stAB.active "d1", p.2 ≠ 1 → (fun (_ : Conn) => false) p.2 = false →
         Event.send p.2 (contentUpdatePayload "A"
           (pyGet message "changes" (.list []))
           (pyGet message "version" .null) "T2") ∈
         (handle_content_update stAB 1 "d1" "A" message "T2" (fun _ => false)).2)
      ∧ (handle_content_update stAB 1 "d1" "A" message "T2"
          (fun _ => false)).2.getLast?
          = some (Event.send 1 (contentUpdateAck (pyGet message "version" .null) "T2"))
      ∧ (∀ e ∈ (handle_content_update stAB 1 "d1" "A" message "T2"
            (fun _ => false)).2,
           Event.to e = 1 →
           e = Event.send 1 (contentUpdateAck (pyGet message "version" .null) "T2")))
     ∧ (truthy (pyGet message "changes" (.list [])) = false ∨
         isNull (pyGet message "version" .null) = true →
        handle_content_update stAB 1 "d1" "A" message "T2" (fun _ => false)
          = (stAB, [Event.send 1 contentUpdateError]))) := by
  intro message
  exact C2_amended stAB 1 "d1" "A" message "T2" (fun _ => false)

/-!
## Claim C8: `comment` dispatch broadcasts to all, unlike `cursor_update`
-/

/-- A frame whose `comment` and `range` fields are both present, with an
empty `comment` string. -/
def msgEmptyComment : PyVal :=
  .dict [("type", .str "comment"), ("comment", .str ""),
         ("range", .dict [("start", .int 0)])]

/-- C8 counterexample: a `comment` frame whose `comment` and `range` fields
are both present (but `comment` is the empty string) is rejected — the
sender alone receives the missing-fields error and nothing is broadcast to
anyone — although the claim requires a broadcast to all connections
whenever both fields are present.  The source tests `if not comment`,
i.e. truthiness, not presence. -/
theorem C8_counterexample :
    (dictLookup [("type", PyVal.str "comment"), ("comment", PyVal.str ""),
      ("range", PyVal.dict [("start", PyVal.int 0)])] "comment").isSome = true
    ∧ (dictLookup [("type", PyVal.str "comment"), ("comment", PyVal.str ""),
        ("range", PyVal.dict [("start", PyVal.int 0)])] "range").isSome = true
    ∧ (handle_comment stAB 1 "d1" "A" msgEmptyComment "T2" "u"
        (fun _ => false)).2 = [Event.send 1 commentError]
    ∧ (handle_comment stAB 1 "d1" "A" msgEmptyComment "T2" "u"
        (fun _ => false)).1 = stAB := by
  exact ⟨rfl, rfl, rfl, rfl⟩

/-- C8, amended ("present" tightened to "present and truthy"): a dispatched
`comment` whose `comment` and `range` fields are both truthy gets a comment
with the server-generated id `comment_<uuid4().hex>` and timestamp, and the
resulting message is broadcast with no exclusions — every connection of the
document whose send does not fail receives it, the sender's own connection
included — whereas a `cursor_update` broadcast never delivers to the
sender's connection. -/
theorem C8_amended (st : MState) (ws : Conn) (document_id user_id : String)
    (message : PyVal) (ts uuidHex : String) (fails : Conn → Bool) :
    (truthy (pyGet message "comment" .null) = true →
     truthy (pyGet message "range" .null) = true →
     ∀ p ∈ st.active document_id, fails p.2 = false →
       Event.send p.2 (commentPayload user_id (pyGet message "comment" .null)
         (pyGet message "range" .null) ts uuidHex) ∈
       (handle_comment st ws document_id user_id message ts uuidHex fails).2)
    ∧ (∀ e ∈ (handle_cursor_update st ws document_id user_id message ts fails).2,
        Event.to e ≠ ws) := by
  constructor
  · intro hc hr p hp hpf
    have hcond : (!truthy (pyGet message "comment" .null) ||
        !truthy (pyGet message "range" .null)) = false := by
      rw [hc, hr]
      rfl
    unfold handle_comment
    simp only [hcond, Bool.false_eq_true, if_false]
    rw [broadcast_spec]
    simp only
    have hk : bcKeep [] [] fails p = true := by
      simp [bcKeep, hpf]
    exact List.mem_map.2 ⟨p, List.mem_filter.2 ⟨hp, hk⟩, rfl⟩
  · intro e he
    unfold handle_cursor_update at he
    rw [broadcast_spec] at he
    simp only at he
    rcases List.mem_map.1 he with ⟨p, hpf, hpe⟩
    have hk := (List.mem_filter.1 hpf).2
    intro hews
    rw [← hpe] at hews
    simp only [Event.to] at hews
    simp [bcKeep, hews] at hk

/-- Witness for C8 (amended) at the two-user state with a valid comment
frame: `B` receives the comment and so does the sender `A` itself, while a
`cursor_update` from `A` reaches no connection of `A`. -/
theorem C8_amended_witness :
    (let message : PyVal := .dict [("type", .str "comment"),
      ("comment", .str "hi"), ("range", .dict [("start", .int 0)])]
     (truthy (pyGet message "comment" .null) = true →
      truthy (pyGet message "range" .null) = true →
      ∀ p ∈ stAB.active "d1", (fun (_ : Conn) => false) p.2 = false →
        Event.send p.2 (commentPayload "A" (pyGet message "comment" .null)
          (pyGet message "range" .null) "T2" "u") ∈
        (handle_comment stAB 1 "d1" "A" message "T2" "u" (fun _ => false)).2)
     ∧ (∀ e ∈ (handle_cursor_update stAB 1 "d1" "A" message "T2"
          (fun _ => false)).2, Event.to e ≠ 1)) := by
  intro message
  exact C8_amended stAB 1 "d1" "A" message "T2" "u" (fun _ => false)

/-!
## Claim C7: diffing a version against itself

The development below proves that `SequenceMatcher(None, l, l)` produces
only `equal` opcodes, for every line list `l` and every junk predicate (so
in particular under the `autojunk` popularity filter), and from that that
`get_version_diff` of a version against itself yields an empty diff body
and zero change counts.

`chain a junk lo i j` is the length of the junk-free matching chain ending
at positions `(i, j)` of `a` against itself that the dynamic program of
`find_longest_match` tracks in `j2len` (clipped at the window start `lo`).
-/

/-- The chain-extension condition at `(i, j)`: the inner loop of
`find_longest_match` visits `j` (a non-junk match of `a[i]`) and both
indices are inside the window. -/
def chainCond (a : List String) (junk : String → Bool) (lo i j : Nat) : Bool :=
  flmGuard a a junk i j && decide (lo ≤ j) && decide (lo ≤ i)

/-- The `j2len` chain length ending at `(i, j)`. -/
def chain (a : List String) (junk : String → Bool) (lo : Nat) : Nat → Nat → Nat
  | 0, j => if chainCond a junk lo 0 j then 1 else 0
  | i + 1, j =>
      if chainCond a junk lo (i + 1) j then
        if i + 1 = lo || j = lo then 1 else chain a junk lo i (j - 1) + 1
      else 0

theorem chain_eq (a : List String) (junk : String → Bool) (lo i j : Nat) :
    chain a junk lo i j =
      if chainCond a junk lo i j then
        (if i = lo || j = lo then 1 else chain a junk lo (i - 1) (j - 1) + 1)
      else 0 := by
  cases i with
  | zero =>
      by_cases hc : chainCond a junk lo 0 j = true
      · have hlo : lo = 0 := by
          unfold chainCond at hc
          simp only [Bool.and_eq_true, decide_eq_true_eq] at hc
          omega
        rw [show chain a junk lo 0 j = if chainCond a junk lo 0 j then 1 else 0 from rfl]
        rw [if_pos hc, if_pos hc, if_pos (by simp [hlo])]
      · rw [show chain a junk lo 0 j = if chainCond a junk lo 0 j then 1 else 0 from rfl]
        rw [if_neg hc, if_neg hc]
  | succ i2 => rfl

theorem chain_of_cond_false (a : List String) (junk : String → Bool) (lo i j : Nat)
    (h : chainCond a junk lo i j = false) : chain a junk lo i j = 0 := by
  rw [chain_eq, h]
  rfl

theorem chain_pos (a : List String) (junk : String → Bool) (lo i j : Nat)
    (h : chainCond a junk lo i j = true) : 1 ≤ chain a junk lo i j := by
  rw [chain_eq, if_pos h]
  by_cases hb : (i = lo || j = lo) = true
  · rw [if_pos hb]
  · rw [if_neg hb]
    omega

theorem chainCond_le_left (a : List String) (junk : String → Bool) (lo i j : Nat)
    (h : chainCond a junk lo i j = true) : lo ≤ i := by
  unfold chainCond at h
  simp only [Bool.and_eq_true, decide_eq_true_eq] at h
  exact h.2

theorem chainCond_le_right (a : List String) (junk : String → Bool) (lo i j : Nat)
    (h : chainCond a junk lo i j = true) : lo ≤ j := by
  unfold chainCond at h
  simp only [Bool.and_eq_true, decide_eq_true_eq] at h
  exact h.1.2

theorem chain_le_left (a : List String) (junk : String → Bool) (lo : Nat) :
    ∀ i j, chain a junk lo i j ≤ i - lo + 1 := by
  intro i
  induction i using Nat.strong_induction_on with
  | _ i ih =>
      intro j
      rw [chain_eq]
      by_cases hc : chainCond a junk lo i j = true
      · rw [if_pos hc]
        by_cases hb : (i = lo || j = lo) = true
        · rw [if_pos hb]
          omega
        · rw [if_neg hb]
          have hlo := chainCond_le_left a junk lo i j hc
          have hne : i ≠ lo := by
            intro he
            simp [he] at hb
          have hlt : i - 1 < i := by omega
          have := ih (i - 1) hlt (j - 1)
          omega
      · rw [if_neg hc]
        omega

theorem chain_le_right (a : List String) (junk : String → Bool) (lo : Nat) :
    ∀ i j, chain a junk lo i j ≤ j - lo + 1 := by
  intro i
  induction i using Nat.strong_induction_on with
  | _ i ih =>
      intro j
      rw [chain_eq]
      by_cases hc : chainCond a junk lo i j = true
      · rw [if_pos hc]
        by_cases hb : (i = lo || j = lo) = true
        · rw [if_pos hb]
          omega
        · rw [if_neg hb]
          have hlo := chainCond_le_left a junk lo i j hc
          have hloj := chainCond_le_right a junk lo i j hc
          have hnej : j ≠ lo := by
            intro he
            simp [he] at hb
          have hne : i ≠ lo := by
            intro he
            simp [he] at hb
          have hlt : i - 1 < i := by omega
          have := ih (i - 1) hlt (j - 1)
          omega
      · rw [if_neg hc]
        omega

theorem chainCond_symm (a : List String) (junk : String → Bool) (lo i j : Nat) :
    chainCond a junk lo i j = chainCond a junk lo j i := by
  unfold chainCond flmGuard
  by_cases he : a.getD j "" = a.getD i ""
  · rw [he]
    cases hdi : decide (lo ≤ i) <;> cases hdj : decide (lo ≤ j) <;>
      simp [hdi, hdj, Bool.and_comm]
  · have h1 : (a.getD j "" == a.getD i "") = false := by
      rw [beq_eq_false_iff_ne]
      exact he
    have h2 : (a.getD i "" == a.getD j "") = false := by
      rw [beq_eq_false_iff_ne]
      exact fun hx => he hx.symm
    rw [h1, h2]
    simp

theorem chain_symm (a : List String) (junk : String → Bool) (lo : Nat) :
    ∀ i j, chain a junk lo i j = chain a junk lo j i := by
  intro i
  induction i using Nat.strong_induction_on with
  | _ i ih =>
      intro j
      rw [chain_eq, chain_eq a junk lo j i, chainCond_symm a junk lo j i]
      by_cases hc : chainCond a junk lo i j = true
      · rw [if_pos hc, if_pos hc]
        by_cases hb : (i = lo || j = lo) = true
        · rw [if_pos hb, if_pos (by
            rcases Bool.or_eq_true_iff.1 hb with h1 | h1 <;> simp [h1])]
        · have hbne : (j = lo || i = lo) = false := by
            simp only [Bool.or_eq_true, decide_eq_true_eq] at hb
            simp only [Bool.or_eq_false_iff, decide_eq_false_iff_not]
            constructor
            · exact fun he => hb (Or.inr he)
            · exact fun he => hb (Or.inl he)
          rw [if_neg hb, if_neg (by simp [hbne])]
          have hlo := chainCond_le_left a junk lo i j hc
          have hne : i ≠ lo := by
            intro he
            simp [he] at hb
          have hlt : i - 1 < i := by omega
          rw [ih (i - 1) hlt (j - 1)]
      · rw [if_neg hc, if_neg hc]

theorem chainCond_diag (a : List String) (junk : String → Bool) (lo i j : Nat)
    (h : chainCond a junk lo i j = true) : chainCond a junk lo i i = true := by
  unfold chainCond flmGuard at h ⊢
  simp only [Bool.and_eq_true, beq_iff_eq, decide_eq_true_eq] at h
  have hval : a.getD j "" = a.getD i "" := h.1.1.1
  have hjunk : (!junk (a.getD i "")) = true := by
    rw [← hval]
    exact h.1.1.2
  simp [h.2]
  simpa using hjunk

theorem chain_le_diag (a : List String) (junk : String → Bool) (lo : Nat) :
    ∀ i j, chain a junk lo i j ≤ chain a junk lo i i := by
  intro i
  induction i using Nat.strong_induction_on with
  | _ i ih =>
      intro j
      by_cases hc : chainCond a junk lo i j = true
      · have hcd := chainCond_diag a junk lo i j hc
        rw [chain_eq, if_pos hc]
        by_cases hb : (i = lo || j = lo) = true
        · rw [if_pos hb]
          exact chain_pos a junk lo i i hcd
        · rw [if_neg hb]
          have hne : i ≠ lo := by
            intro he
            simp [he] at hb
          rw [chain_eq a junk lo i i, if_pos hcd, if_neg (by simp [hne])]
          have hlo := chainCond_le_left a junk lo i j hc
          have hlt : i - 1 < i := by omega
          have := ih (i - 1) hlt (j - 1)
          omega
      · rw [chain_of_cond_false a junk lo i j (by simpa using hc)]
        omega

/-- The invariant of the inner loop of the dynamic program on `(a, a)` over
window `[lo, hi)`, at row `i` with columns `[lo, j0)` processed: the best
block is diagonal, in-window, attributable (`⟨lo,lo,0⟩` when empty), and its
size dominates every chain of the previous rows and of the processed part
of the current row. -/
def InnerInv (a : List String) (junk : String → Bool) (lo hi i j0 : Nat)
    (best : Match3) : Prop :=
  best.i = best.j ∧ lo ≤ best.i ∧ best.i + best.size ≤ i + 1 ∧
  (best.size = 0 → best = ⟨lo, lo, 0⟩) ∧
  (∀ i2 j2, lo ≤ i2 → i2 < i → j2 < hi → chain a junk lo i2 j2 ≤ best.size) ∧
  (∀ j2, lo ≤ j2 → j2 < j0 → j2 < hi → chain a junk lo i j2 ≤ best.size)

theorem flm_k_val (a : List String) (junk : String → Bool) (lo hi i j : Nat)
    (prev : Nat → Nat)
    (hprev : ∀ j2, prev j2 = if lo < i ∧ j2 < hi then chain a junk lo (i - 1) j2 else 0)
    (hg : flmGuard a a junk i j = true) (hli : lo ≤ i) (hlj : lo ≤ j) (hjhi : j < hi) :
    (if j = 0 then 0 else prev (j - 1)) + 1 = chain a junk lo i j := by
  have hc : chainCond a junk lo i j = true := by
    unfold chainCond
    simp [hg, hli, hlj]
  rw [chain_eq, if_pos hc]
  by_cases hb : (i = lo || j = lo) = true
  · rw [if_pos hb]
    rcases Bool.or_eq_true_iff.1 hb with h1 | h1
    · have hie : i = lo := by simpa using h1
      by_cases hj0 : j = 0
      · rw [if_pos hj0]
      · rw [if_neg hj0, hprev, if_neg (by omega)]
    · have hje : j = lo := by simpa using h1
      by_cases hj0 : j = 0
      · rw [if_pos hj0]
      · rw [if_neg hj0, hprev]
        by_cases hcase : lo < i ∧ j - 1 < hi
        · rw [if_pos hcase, chain_of_cond_false]
          unfold chainCond
          have hd : decide (lo ≤ j - 1) = false := by
            simp
            omega
          simp [hd]
        · rw [if_neg hcase]
  · rw [if_neg hb]
    have hine : i ≠ lo := by
      intro he
      simp [he] at hb
    have hjne : j ≠ lo := by
      intro he
      simp [he] at hb
    have hj0 : j ≠ 0 := by omega
    rw [if_neg hj0, hprev, if_pos (by constructor <;> omega)]

theorem flmRow_fold_inv (a : List String) (junk : String → Bool) (lo hi i : Nat)
    (hli : lo ≤ i) (hihi : i < hi) (prev : Nat → Nat)
    (hprev : ∀ j2, prev j2 = if lo < i ∧ j2 < hi then chain a junk lo (i - 1) j2 else 0) :
    ∀ (len j0 : Nat), lo ≤ j0 → j0 + len = hi →
      ∀ (m : Nat → Nat) (best : Match3),
        (∀ j2, m j2 = if lo ≤ j2 ∧ j2 < j0 then chain a junk lo i j2 else 0) →
        InnerInv a junk lo hi i j0 best →
        (∀ j2, ((List.range' j0 len).foldl (flmStep a a junk i prev) (m, best)).1 j2
            = if lo ≤ j2 ∧ j2 < hi then chain a junk lo i j2 else 0)
        ∧ InnerInv a junk lo hi i hi
            ((List.range' j0 len).foldl (flmStep a a junk i prev) (m, best)).2 := by
  intro len
  induction len with
  | zero =>
      intro j0 hj0lo hj0 m best hm hbest
      have hj0hi : j0 = hi := by omega
      subst hj0hi
      simp only [List.range', List.foldl_nil]
      exact ⟨hm, hbest⟩
  | succ len ih =>
      intro j0 hj0lo hj0 m best hm hbest
      rw [List.range'_succ, List.foldl_cons]
      obtain ⟨hb1, hb2, hb3, hb4, hb5, hb6⟩ := hbest
      have hj0hi : j0 < hi := by omega
      by_cases hg : flmGuard a a junk i j0 = true
      · have hk := flm_k_val a junk lo hi i j0 prev hprev hg hli hj0lo hj0hi
        have hstep : flmStep a a junk i prev (m, best) j0 =
            (fun j2 => if j2 = j0 then chain a junk lo i j0 else m j2,
             if best.size < chain a junk lo i j0
               then ⟨i + 1 - chain a junk lo i j0, j0 + 1 - chain a junk lo i j0,
                 chain a junk lo i j0⟩
               else best) := by
          unfold flmStep
          rw [if_pos hg]
          simp only [hk]
          by_cases hc2 : best.size < chain a junk lo i j0
          · rw [if_pos hc2, if_pos hc2]
          · rw [if_neg hc2, if_neg hc2]
        rw [hstep]
        have hmap2 : ∀ jz, (fun j2 => if j2 = j0 then chain a junk lo i j0 else m j2) jz
            = if lo ≤ jz ∧ jz < j0 + 1 then chain a junk lo i jz else 0 := by
          intro jz
          show (if jz = j0 then chain a junk lo i j0 else m jz) = _
          by_cases hjz : jz = j0
          · rw [if_pos hjz, hjz, if_pos ⟨hj0lo, Nat.lt_succ_self j0⟩]
          · rw [if_neg hjz, hm jz]
            by_cases hc2 : lo ≤ jz ∧ jz < j0
            · rw [if_pos hc2, if_pos ⟨hc2.1, by omega⟩]
            · rw [if_neg hc2, if_neg (fun hc3 => hc2 ⟨hc3.1, by omega⟩)]
        by_cases hupd : best.size < chain a junk lo i j0
        · rw [if_pos hupd]
          have hdiag : j0 = i := by
            by_contra hne
            rcases Nat.lt_or_ge j0 i with hlt | hge
            · have hsymm := chain_symm a junk lo i j0
              have := hb5 j0 i hj0lo hlt (by omega)
              omega
            · have hgt : i < j0 := by omega
              have hd := chain_le_diag a junk lo i j0
              have := hb6 i hli hgt (by omega)
              omega
          have hcij : chain a junk lo i j0 = chain a junk lo i i := by
            rw [hdiag]
          have hle := chain_le_left a junk lo i i
          have hpos : 1 ≤ chain a junk lo i j0 := by
            rw [← hk]
            exact Nat.succ_le_succ (Nat.zero_le _)
          apply ih (j0 + 1) (by omega) (by omega) _ _ hmap2
          refine ⟨?_, ?_, ?_, ?_, ?_, ?_⟩
          · show i + 1 - chain a junk lo i j0 = j0 + 1 - chain a junk lo i j0
            rw [hdiag]
          · show lo ≤ i + 1 - chain a junk lo i j0
            omega
          · show (i + 1 - chain a junk lo i j0) + chain a junk lo i j0 ≤ i + 1
            omega
          · intro hz
            have hz2 : chain a junk lo i j0 = 0 := hz
            omega
          · intro i2 jj h1 h2 h3
            show chain a junk lo i2 jj ≤ chain a junk lo i j0
            have := hb5 i2 jj h1 h2 h3
            omega
          · intro jj h1 h2 h3
            show chain a junk lo i jj ≤ chain a junk lo i j0
            by_cases hj2 : jj = j0
            · rw [hj2]
            · have := hb6 jj h1 (by omega) h3
              omega
        · rw [if_neg hupd]
          apply ih (j0 + 1) (by omega) (by omega) _ _ hmap2
          refine ⟨hb1, hb2, hb3, hb4, hb5, ?_⟩
          intro j2 h1 h2 h3
          by_cases hj2 : j2 = j0
          · subst hj2
            omega
          · exact hb6 j2 h1 (by omega) h3
      · have hchain0 : chain a junk lo i j0 = 0 := by
          apply chain_of_cond_false
          unfold chainCond
          simp [hg]
        have hstep : flmStep a a junk i prev (m, best) j0 = (m, best) := by
          unfold flmStep
          rw [if_neg hg]
        rw [hstep]
        have hmap2 : ∀ j2, m j2 = if lo ≤ j2 ∧ j2 < j0 + 1 then chain a junk lo i j2 else 0 := by
          intro j2
          rw [hm j2]
          by_cases hj2 : j2 = j0
          · subst hj2
            rw [if_neg (by omega), if_pos (by omega), hchain0]
          · by_cases hc2 : lo ≤ j2 ∧ j2 < j0
            · rw [if_pos hc2, if_pos (by omega)]
            · rw [if_neg hc2, if_neg (by omega)]
        apply ih (j0 + 1) (by omega) (by omega) _ _ hmap2
        refine ⟨hb1, hb2, hb3, hb4, hb5, ?_⟩
        intro j2 h1 h2 h3
        by_cases hj2 : j2 = j0
        · subst hj2
          omega
        · exact hb6 j2 h1 (by omega) h3

/-- The invariant of the outer loop of the dynamic program on `(a, a)`:
rows `[lo, r)` processed. -/
def OutInv (a : List String) (junk : String → Bool) (lo hi r : Nat)
    (best : Match3) : Prop :=
  best.i = best.j ∧ lo ≤ best.i ∧ best.i + best.size ≤ r ∧
  (best.size = 0 → best = ⟨lo, lo, 0⟩) ∧
  (∀ i2 j2, lo ≤ i2 → i2 < r → j2 < hi → chain a junk lo i2 j2 ≤ best.size)

theorem flmDP_fold_inv (a : List String) (junk : String → Bool) (lo hi : Nat) :
    ∀ (len r : Nat), lo ≤ r → r + len = hi →
      ∀ (m : Nat → Nat) (best : Match3),
        (∀ j2, m j2 = if lo < r ∧ j2 < hi then chain a junk lo (r - 1) j2 else 0) →
        OutInv a junk lo hi r best →
        OutInv a junk lo hi hi
          ((List.range' r len).foldl (flmRow a a junk lo hi) (m, best)).2 := by
  intro len
  induction len with
  | zero =>
      intro r hrlo hr m best hm hbest
      have : r = hi := by omega
      subst this
      simpa using hbest
  | succ len ih =>
      intro r hrlo hr m best hm hbest
      rw [List.range'_succ, List.foldl_cons]
      have hrhi : r < hi := by omega
      obtain ⟨hb1, hb2, hb3, hb4, hb5⟩ := hbest
      have hzero : ∀ j2, (fun (_ : Nat) => (0 : Nat)) j2 =
          if lo ≤ j2 ∧ j2 < lo then chain a junk lo r j2 else 0 := by
        intro j2
        rw [if_neg (by omega)]
      have hinner := flmRow_fold_inv a junk lo hi r hrlo hrhi m hm (hi - lo) lo
        (Nat.le_refl lo) (by omega) (fun _ => 0) best hzero
        ⟨hb1, hb2, by omega, hb4, hb5, fun j2 h1 h2 h3 => by omega⟩
      have hrow : flmRow a a junk lo hi (m, best) r =
          (List.range' lo (hi - lo)).foldl (flmStep a a junk r m) ((fun _ => 0), best) := rfl
      rw [hrow]
      have hmap := hinner.1
      obtain ⟨hi1, hi2, hi3, hi4, hi5, hi6⟩ := hinner.2
      apply ih (r + 1) (by omega) (by omega) _ _ ?hmnext ?hbnext
      case hmnext =>
        intro j2
        rw [hmap j2]
        by_cases hc : lo ≤ j2 ∧ j2 < hi
        · rw [if_pos hc, if_pos (by omega)]
          rfl
        · rw [if_neg hc]
          by_cases hc2 : lo < r + 1 ∧ j2 < hi
          · rw [if_pos hc2]
            have hj2lo : ¬ lo ≤ j2 := by
              intro hx
              exact hc ⟨hx, hc2.2⟩
            rw [chain_of_cond_false]
            unfold chainCond
            have hd : decide (lo ≤ j2) = false := by
              simp
              omega
            simp [hd]
          · rw [if_neg hc2]
      case hbnext =>
        exact ⟨hi1, hi2, hi3, hi4, fun i2 j2 h1 h2 h3 => by
          rcases Nat.lt_or_ge i2 r with hlt | hge
          · exact hi5 i2 j2 h1 hlt h3
          · have : i2 = r := by omega
            subst this
            rcases Nat.lt_or_ge j2 lo with hjlt | hjge
            · rw [chain_of_cond_false]
              · omega
              · unfold chainCond
                have hd : decide (lo ≤ j2) = false := by
                  simp
                  omega
                simp [hd]
            · exact hi6 j2 hjge h3 h3⟩

theorem flmDP_spec (a : List String) (junk : String → Bool) (lo hi : Nat)
    (hlohi : lo ≤ hi) :
    OutInv a junk lo hi hi (flmDP a a junk lo hi lo hi) := by
  unfold flmDP
  have hinit : OutInv a junk lo hi lo ⟨lo, lo, 0⟩ := by
    refine ⟨rfl, Nat.le_refl lo, ?_, fun _ => rfl, ?_⟩
    · show lo + 0 ≤ lo
      omega
    · intro i2 j2 h1 h2 h3
      exact absurd h2 (by omega)
  have h := flmDP_fold_inv a junk lo hi (hi - lo) lo (Nat.le_refl lo) (by omega)
    (fun _ => 0) ⟨lo, lo, 0⟩ (fun j2 => by rw [if_neg (by omega)]) hinit
  exact h

theorem extendBack_diag (a : List String) (lo hi : Nat) :
    ∀ (fuel : Nat) (m : Match3), m.i = m.j → lo ≤ m.i → m.i + m.size ≤ hi →
      (extendBack a a lo lo fuel m).i = (extendBack a a lo lo fuel m).j
      ∧ lo ≤ (extendBack a a lo lo fuel m).i
      ∧ (extendBack a a lo lo fuel m).i + (extendBack a a lo lo fuel m).size ≤ hi
      ∧ m.size ≤ (extendBack a a lo lo fuel m).size := by
  intro fuel
  induction fuel with
  | zero =>
      intro m h1 h2 h3
      exact ⟨h1, h2, h3, Nat.le_refl _⟩
  | succ fuel ih =>
      intro m h1 h2 h3
      have hstep : extendBack a a lo lo (fuel + 1) m =
          (if lo < m.i && lo < m.j && (a.getD (m.i - 1) "" == a.getD (m.j - 1) "")
            then extendBack a a lo lo fuel ⟨m.i - 1, m.j - 1, m.size + 1⟩ else m) := rfl
      rw [hstep]
      by_cases hc : (lo < m.i && lo < m.j && (a.getD (m.i - 1) "" == a.getD (m.j - 1) "")) = true
      · rw [if_pos hc]
        have hlt : lo < m.i := by
          simp only [Bool.and_eq_true, decide_eq_true_eq] at hc
          exact hc.1.1
        have := ih ⟨m.i - 1, m.j - 1, m.size + 1⟩ (by simp [h1]) (by simp; omega)
          (by simp; omega)
        refine ⟨this.1, this.2.1, this.2.2.1, ?_⟩
        have := this.2.2.2
        simp at this
        omega
      · rw [if_neg hc]
        exact ⟨h1, h2, h3, Nat.le_refl _⟩

theorem extendFwd_diag (a : List String) (lo hi : Nat) :
    ∀ (fuel : Nat) (m : Match3), m.i = m.j → lo ≤ m.i → m.i + m.size ≤ hi →
      (extendFwd a a hi hi fuel m).i = (extendFwd a a hi hi fuel m).j
      ∧ lo ≤ (extendFwd a a hi hi fuel m).i
      ∧ (extendFwd a a hi hi fuel m).i + (extendFwd a a hi hi fuel m).size ≤ hi
      ∧ m.size ≤ (extendFwd a a hi hi fuel m).size := by
  intro fuel
  induction fuel with
  | zero =>
      intro m h1 h2 h3
      exact ⟨h1, h2, h3, Nat.le_refl _⟩
  | succ fuel ih =>
      intro m h1 h2 h3
      have hstep : extendFwd a a hi hi (fuel + 1) m =
          (if m.i + m.size < hi && (m.j + m.size < hi) &&
              (a.getD (m.i + m.size) "" == a.getD (m.j + m.size) "")
            then extendFwd a a hi hi fuel ⟨m.i, m.j, m.size + 1⟩ else m) := rfl
      rw [hstep]
      by_cases hc : (m.i + m.size < hi && (m.j + m.size < hi) &&
          (a.getD (m.i + m.size) "" == a.getD (m.j + m.size) "")) = true
      · rw [if_pos hc]
        have hlt : m.i + m.size < hi := by
          simp only [Bool.and_eq_true, decide_eq_true_eq] at hc
          exact hc.1.1
        have := ih ⟨m.i, m.j, m.size + 1⟩ (by simp [h1]) (by simpa using h2)
          (by simp; omega)
        refine ⟨this.1, this.2.1, this.2.2.1, ?_⟩
        have := this.2.2.2
        simp at this
        omega
      · rw [if_neg hc]
        exact ⟨h1, h2, h3, Nat.le_refl _⟩

theorem extendFwd_pos (a : List String) (hi : Nat) :
    ∀ (fuel : Nat) (m : Match3), 1 ≤ fuel → m.i = m.j → m.i + m.size < hi →
      1 ≤ (extendFwd a a hi hi fuel m).size := by
  intro fuel
  cases fuel with
  | zero =>
      intro m h1 h2 h3
      omega
  | succ fuel =>
      intro m _ h2 h3
      have hc : (m.i + m.size < hi && (m.j + m.size < hi) &&
          (a.getD (m.i + m.size) "" == a.getD (m.j + m.size) "")) = true := by
        rw [← h2]
        simp [h3]
      have hstep : extendFwd a a hi hi (fuel + 1) m =
          (if m.i + m.size < hi && (m.j + m.size < hi) &&
              (a.getD (m.i + m.size) "" == a.getD (m.j + m.size) "")
            then extendFwd a a hi hi fuel ⟨m.i, m.j, m.size + 1⟩ else m) := rfl
      rw [hstep, if_pos hc]
      have := extendFwd_diag a 0 hi fuel ⟨m.i, m.j, m.size + 1⟩ (by simp [h2])
        (by simp) (by simp; omega)
      have hmono := this.2.2.2
      simp at hmono
      omega

theorem extendBack_at_lo (a : List String) (lo : Nat) :
    ∀ (fuel : Nat), extendBack a a lo lo fuel ⟨lo, lo, 0⟩ = ⟨lo, lo, 0⟩ := by
  intro fuel
  cases fuel with
  | zero => rfl
  | succ n =>
      have hstep : extendBack a a lo lo (n + 1) (⟨lo, lo, 0⟩ : Match3) =
          (if lo < (⟨lo, lo, 0⟩ : Match3).i && lo < (⟨lo, lo, 0⟩ : Match3).j &&
              (a.getD ((⟨lo, lo, 0⟩ : Match3).i - 1) ""
                == a.getD ((⟨lo, lo, 0⟩ : Match3).j - 1) "")
            then extendBack a a lo lo n
              ⟨(⟨lo, lo, 0⟩ : Match3).i - 1, (⟨lo, lo, 0⟩ : Match3).j - 1,
                (⟨lo, lo, 0⟩ : Match3).size + 1⟩
            else ⟨lo, lo, 0⟩) := rfl
      rw [hstep, if_neg (by simp)]

/-- On equal sequences, `find_longest_match` over a symmetric window returns
a diagonal block inside the window, nonempty whenever the window is. -/
theorem flm_self_diag (a : List String) (junk : String → Bool) (lo hi : Nat)
    (hlohi : lo ≤ hi) :
    (find_longest_match a a junk lo hi lo hi).i
        = (find_longest_match a a junk lo hi lo hi).j
    ∧ lo ≤ (find_longest_match a a junk lo hi lo hi).i
    ∧ (find_longest_match a a junk lo hi lo hi).i
        + (find_longest_match a a junk lo hi lo hi).size ≤ hi
    ∧ (lo < hi → 1 ≤ (find_longest_match a a junk lo hi lo hi).size) := by
  obtain ⟨hd1, hd2, hd3, hd4, hd5⟩ := flmDP_spec a junk lo hi hlohi
  unfold find_longest_match
  simp only
  set m0 := flmDP a a junk lo hi lo hi with hm0
  have hback := extendBack_diag a lo hi m0.i m0 hd1 hd2 (by omega)
  set m1 := extendBack a a lo lo m0.i m0 with hm1
  have hfwd := extendFwd_diag a lo hi hi m1 hback.1 hback.2.1 hback.2.2.1
  refine ⟨hfwd.1, hfwd.2.1, hfwd.2.2.1, ?_⟩
  intro hlt
  by_cases hz : m0.size = 0
  · have hm0e : m0 = ⟨lo, lo, 0⟩ := hd4 hz
    have hm1e : m1 = ⟨lo, lo, 0⟩ := by
      rw [hm1, hm0e]
      exact extendBack_at_lo a lo _
    apply extendFwd_pos a hi hi m1 (by omega) ?hpre ?hsz
    case hpre =>
      rw [hm1e]
    case hsz =>
      rw [hm1e]
      show lo + 0 < hi
      omega
  · have hmono1 := hback.2.2.2
    have hmono2 := hfwd.2.2.2
    omega

/-- The interval of `a`-positions covered by a block. -/
def bIv (m : Match3) : Nat × Nat := (m.i, m.i + m.size)

/-- The interval of `a`-positions covered by a queued range. -/
def qIv (r : Nat × Nat × Nat × Nat) : Nat × Nat := (r.1, r.2.1)

/-- Disjointness of half-open intervals. -/
def ivDisj (p q : Nat × Nat) : Prop := p.2 ≤ q.1 ∨ q.2 ≤ p.1

theorem ivDisj_symm : Symmetric ivDisj := by
  intro p q h
  unfold ivDisj at h ⊢
  omega

/-- A well-formed queued range on equal sequences: symmetric, nonempty,
inside `[0, n)`. -/
def R4ok (n : Nat) (r : Nat × Nat × Nat × Nat) : Prop :=
  r.2.2.1 = r.1 ∧ r.2.2.2 = r.2.1 ∧ r.1 < r.2.1 ∧ r.2.1 ≤ n

/-- A well-formed produced block on equal sequences: diagonal, nonempty,
inside `[0, n)`. -/
def BlockOk (n : Nat) (m : Match3) : Prop :=
  m.i = m.j ∧ 1 ≤ m.size ∧ m.i + m.size ≤ n

theorem pairwise_refine (x : Nat × Nat) (l P : List (Nat × Nat))
    (hP : List.Pairwise ivDisj P) (hsub : ∀ p ∈ P, x.1 ≤ p.1 ∧ p.2 ≤ x.2)
    (h : List.Pairwise ivDisj (x :: l)) : List.Pairwise ivDisj (P ++ l) := by
  rw [List.pairwise_append]
  rcases List.pairwise_cons.1 h with ⟨hx, hl⟩
  refine ⟨hP, hl, ?_⟩
  intro p hp q hq
  rcases hx q hq with hle | hle
  · exact Or.inl (le_trans (hsub p hp).2 hle)
  · exact Or.inr (le_trans hle (hsub p hp).1)

theorem gmbLoop_spec (a : List String) (junk : String → Bool) (n : Nat) :
    ∀ (fuel : Nat) (queue : List (Nat × Nat × Nat × Nat)) (acc : List Match3),
      (∀ r ∈ queue, R4ok n r) →
      2 * (queue.map (fun r => r.2.1 - r.1)).sum + queue.length ≤ fuel →
      List.Pairwise ivDisj (queue.map qIv ++ acc.map bIv) →
      (∀ m ∈ acc, BlockOk n m) →
      (∀ m ∈ gmbLoop a a junk fuel queue acc, BlockOk n m)
      ∧ List.Pairwise ivDisj ((gmbLoop a a junk fuel queue acc).map bIv)
      ∧ (∀ x, ((∃ r ∈ queue, r.1 ≤ x ∧ x < r.2.1) ∨
               (∃ m ∈ acc, m.i ≤ x ∧ x < m.i + m.size)) →
          ∃ m ∈ gmbLoop a a junk fuel queue acc, m.i ≤ x ∧ x < m.i + m.size) := by
  intro fuel
  induction fuel with
  | zero =>
      intro queue acc hq hfuel hpw hacc
      cases queue with
      | nil =>
          refine ⟨hacc, by simpa using hpw, ?_⟩
          intro x hx
          rcases hx with ⟨r, hr, _⟩ | hx2
          · cases hr
          · exact hx2
      | cons r rest =>
          exfalso
          have hok := hq r (List.mem_cons_self r rest)
          simp only [List.length_cons] at hfuel
          omega
  | succ fuel ih =>
      intro queue acc hq hfuel hpw hacc
      cases queue with
      | nil =>
          refine ⟨hacc, by simpa using hpw, ?_⟩
          intro x hx
          rcases hx with ⟨r, hr, _⟩ | hx2
          · cases hr
          · exact hx2
      | cons r0 rest =>
          obtain ⟨alo, ahi, blo, bhi⟩ := r0
          obtain ⟨he1, he2, hlt, hlen⟩ := hq _ (List.mem_cons_self _ rest)
          simp only at he1 he2 hlt hlen
          have he1x := he1.symm
          have he2x := he2.symm
          subst he1x
          subst he2x
          obtain ⟨hm1, hm2, hm3, hm4⟩ := flm_self_diag a junk alo ahi (by omega)
          set m := find_longest_match a a junk alo ahi alo ahi with hmdef
          have hms : 1 ≤ m.size := hm4 hlt
          have hgmb : gmbLoop a a junk (fuel + 1) ((alo, ahi, alo, ahi) :: rest) acc =
              (if m.size = 0 then gmbLoop a a junk fuel rest acc
               else
                let qL : List (Nat × Nat × Nat × Nat) :=
                  if alo < m.i ∧ alo < m.j then [(alo, m.i, alo, m.j)] else []
                let qR : List (Nat × Nat × Nat × Nat) :=
                  if m.i + m.size < ahi ∧ m.j + m.size < ahi then
                    [(m.i + m.size, ahi, m.j + m.size, ahi)] else []
                gmbLoop a a junk fuel (qR ++ qL ++ rest) (acc ++ [m])) := rfl
          rw [hgmb, if_neg (by omega)]
          simp only
          have hL : (if alo < m.i ∧ alo < m.j then [(alo, m.i, alo, m.j)] else [])
              = if alo < m.i then [(alo, m.i, alo, m.i)] else [] := by
            by_cases hc : alo < m.i
            · rw [if_pos ⟨hc, by omega⟩, if_pos hc, ← hm1]
            · rw [if_neg (by omega), if_neg hc]
          have hR : (if m.i + m.size < ahi ∧ m.j + m.size < ahi then
                [(m.i + m.size, ahi, m.j + m.size, ahi)] else [])
              = if m.i + m.size < ahi then [(m.i + m.size, ahi, m.i + m.size, ahi)] else [] := by
            by_cases hc : m.i + m.size < ahi
            · rw [if_pos ⟨hc, by omega⟩, if_pos hc, ← hm1]
            · rw [if_neg (by omega), if_neg hc]
          rw [hL, hR]
          set qL : List (Nat × Nat × Nat × Nat) :=
            if alo < m.i then [(alo, m.i, alo, m.i)] else [] with hqL
          set qR : List (Nat × Nat × Nat × Nat) :=
            if m.i + m.size < ahi then [(m.i + m.size, ahi, m.i + m.size, ahi)] else []
            with hqR
          have hqok : ∀ r ∈ qR ++ qL ++ rest, R4ok n r := by
            intro r hr
            rcases List.mem_append.1 hr with hr1 | hr2
            · rcases List.mem_append.1 hr1 with hra | hrb
              · rw [hqR] at hra
                by_cases hc : m.i + m.size < ahi
                · rw [if_pos hc] at hra
                  rcases List.mem_singleton.1 hra with rfl
                  refine ⟨rfl, rfl, ?_, ?_⟩
                  · show m.i + m.size < ahi
                    omega
                  · show ahi ≤ n
                    omega
                · rw [if_neg hc] at hra
                  cases hra
              · rw [hqL] at hrb
                by_cases hc : alo < m.i
                · rw [if_pos hc] at hrb
                  rcases List.mem_singleton.1 hrb with rfl
                  refine ⟨rfl, rfl, ?_, ?_⟩
                  · show alo < m.i
                    omega
                  · show m.i ≤ n
                    omega
                · rw [if_neg hc] at hrb
                  cases hrb
            · exact hq r (List.mem_cons_of_mem _ hr2)
          have hqLsum : (qL.map (fun r => r.2.1 - r.1)).sum = m.i - alo := by
            rw [hqL]
            by_cases hc : alo < m.i
            · rw [if_pos hc]
              simp
            · rw [if_neg hc]
              simp
              omega
          have hqRsum : (qR.map (fun r => r.2.1 - r.1)).sum = ahi - (m.i + m.size) := by
            rw [hqR]
            by_cases hc : m.i + m.size < ahi
            · rw [if_pos hc]
              simp
            · rw [if_neg hc]
              simp
              omega
          have hqLlen : qL.length ≤ 1 := by
            rw [hqL]
            by_cases hc : alo < m.i <;> simp [hc]
          have hqRlen : qR.length ≤ 1 := by
            rw [hqR]
            by_cases hc : m.i + m.size < ahi <;> simp [hc]
          have hfuel2 : 2 * ((qR ++ qL ++ rest).map (fun r => r.2.1 - r.1)).sum
              + (qR ++ qL ++ rest).length ≤ fuel := by
            simp only [List.map_append, List.sum_append, List.length_append] at hfuel ⊢
            rw [hqLsum, hqRsum]
            simp only [List.map_cons, List.sum_cons, List.length_cons] at hfuel
            omega
          have hpw2 : List.Pairwise ivDisj ((qR ++ qL ++ rest).map qIv
              ++ (acc ++ [m]).map bIv) := by
            have hdRL : ivDisj (qIv (m.i + m.size, ahi, m.i + m.size, ahi))
                (qIv (alo, m.i, alo, m.i)) := by
              simp only [ivDisj, qIv]
              omega
            have hdRb : ivDisj (qIv (m.i + m.size, ahi, m.i + m.size, ahi)) (bIv m) := by
              simp only [ivDisj, qIv, bIv]
              omega
            have hdLb : ivDisj (qIv (alo, m.i, alo, m.i)) (bIv m) := by
              simp only [ivDisj, qIv, bIv]
              omega
            have hP : List.Pairwise ivDisj (qR.map qIv ++ qL.map qIv ++ [bIv m]) := by
              rw [hqR, hqL]
              by_cases hcR : m.i + m.size < ahi <;> by_cases hcL : alo < m.i <;>
                simp only [hcR, hcL, if_true, if_false, List.map_cons, List.map_nil,
                  List.nil_append, List.cons_append]
              · refine List.Pairwise.cons ?_ (List.Pairwise.cons ?_ (List.pairwise_singleton _ _))
                · intro p hp
                  rcases List.mem_cons.1 hp with rfl | hp2
                  · exact hdRL
                  · rcases List.mem_singleton.1 hp2 with rfl
                    exact hdRb
                · intro p hp
                  rcases List.mem_singleton.1 hp with rfl
                  exact hdLb
              · refine List.Pairwise.cons ?_ (List.pairwise_singleton _ _)
                intro p hp
                rcases List.mem_singleton.1 hp with rfl
                exact hdRb
              · refine List.Pairwise.cons ?_ (List.pairwise_singleton _ _)
                intro p hp
                rcases List.mem_singleton.1 hp with rfl
                exact hdLb
              · exact List.pairwise_singleton _ _
            have hsub : ∀ p ∈ qR.map qIv ++ qL.map qIv ++ [bIv m],
                (qIv (alo, ahi, alo, ahi)).1 ≤ p.1 ∧ p.2 ≤ (qIv (alo, ahi, alo, ahi)).2 := by
              intro p hp
              rcases List.mem_append.1 hp with hp1 | hp2
              · rcases List.mem_append.1 hp1 with hpa | hpb
                · rw [hqR] at hpa
                  by_cases hc : m.i + m.size < ahi
                  · rw [if_pos hc] at hpa
                    rcases List.mem_singleton.1 (by simpa using hpa) with rfl
                    unfold qIv
                    simp
                    omega
                  · rw [if_neg hc] at hpa
                    simp at hpa
                · rw [hqL] at hpb
                  by_cases hc : alo < m.i
                  · rw [if_pos hc] at hpb
                    rcases List.mem_singleton.1 (by simpa using hpb) with rfl
                    unfold qIv
                    simp
                    omega
                  · rw [if_neg hc] at hpb
                    simp at hpb
              · rcases List.mem_singleton.1 hp2 with rfl
                unfold qIv bIv
                simp
                omega
            have hrefine := pairwise_refine (qIv (alo, ahi, alo, ahi))
              (rest.map qIv ++ acc.map bIv) (qR.map qIv ++ qL.map qIv ++ [bIv m])
              hP hsub (by simpa using hpw)
            have hperm : ((qR.map qIv ++ qL.map qIv ++ [bIv m]) ++
                (rest.map qIv ++ acc.map bIv)).Perm
                ((qR ++ qL ++ rest).map qIv ++ (acc ++ [m]).map bIv) := by
              rw [List.perm_iff_count]
              intro x
              simp only [List.map_append, List.count_append, List.map_cons,
                List.map_nil, List.count_cons, List.count_nil]
              omega
            exact (hperm.pairwise_iff (fun h => ivDisj_symm h)).1 hrefine
          have hacc2 : ∀ m2 ∈ acc ++ [m], BlockOk n m2 := by
            intro m2 hm2
            rcases List.mem_append.1 hm2 with hma | hmb
            · exact hacc m2 hma
            · rcases List.mem_singleton.1 hmb with rfl
              exact ⟨hm1, hms, by omega⟩
          obtain ⟨hc1, hc2, hc3⟩ := ih (qR ++ qL ++ rest) (acc ++ [m]) hqok hfuel2
            hpw2 hacc2
          refine ⟨hc1, hc2, ?_⟩
          intro x hx
          apply hc3
          rcases hx with ⟨r, hr, hxr⟩ | ⟨m2, hm2, hxm⟩
          · rcases List.mem_cons.1 hr with rfl | hr2
            · simp only at hxr
              rcases Nat.lt_or_ge x m.i with hxlt | hxge
              · refine Or.inl ⟨(alo, m.i, alo, m.i), ?_, ?_⟩
                · apply List.mem_append.2
                  apply Or.inl
                  apply List.mem_append.2
                  apply Or.inr
                  rw [hqL, if_pos (by omega)]
                  exact List.mem_singleton.2 rfl
                · show alo ≤ x ∧ x < m.i
                  omega
              · rcases Nat.lt_or_ge x (m.i + m.size) with hxlt2 | hxge2
                · exact Or.inr ⟨m, List.mem_append.2 (Or.inr (List.mem_singleton.2 rfl)),
                    by omega⟩
                · refine Or.inl ⟨(m.i + m.size, ahi, m.i + m.size, ahi), ?_, ?_⟩
                  · apply List.mem_append.2
                    apply Or.inl
                    apply List.mem_append.2
                    apply Or.inl
                    rw [hqR, if_pos (by omega)]
                    exact List.mem_singleton.2 rfl
                  · show m.i + m.size ≤ x ∧ x < ahi
                    omega
            · exact Or.inl ⟨r, List.mem_append.2 (Or.inr hr2), hxr⟩
          · exact Or.inr ⟨m2, List.mem_append.2 (Or.inl hm2), hxm⟩

/-- A list of blocks tiles `[s, n)` consecutively. -/
def Tiling (n : Nat) : Nat → List Match3 → Prop
  | s, [] => s = n
  | s, m :: rest => m.i = s ∧ m.j = s ∧ 1 ≤ m.size ∧ Tiling n (s + m.size) rest

theorem tiling_of_sorted (n : Nat) :
    ∀ (l : List Match3) (s : Nat),
      List.Pairwise blockLe l →
      List.Pairwise ivDisj (l.map bIv) →
      (∀ m ∈ l, m.i = m.j ∧ 1 ≤ m.size ∧ s ≤ m.i ∧ m.i + m.size ≤ n) →
      (∀ x, s ≤ x → x < n → ∃ m ∈ l, m.i ≤ x ∧ x < m.i + m.size) →
      s ≤ n → Tiling n s l := by
  intro l
  induction l with
  | nil =>
      intro s _ _ _ hcover hs
      show s = n
      by_contra hne
      rcases hcover s (Nat.le_refl s) (by omega) with ⟨m, hm, _⟩
      cases hm
  | cons m rest ih =>
      intro s hsort hdisj hok hcover hs
      obtain ⟨hmd, hms, hmlo, hmhi⟩ := hok m (List.mem_cons_self m rest)
      have hslt : s < n := by omega
      have hmi : m.i = s := by
        rcases hcover s (Nat.le_refl s) hslt with ⟨m2, hm2, hx1, hx2⟩
        rcases List.mem_cons.1 hm2 with rfl | hm2r
        · omega
        · have hle := (List.pairwise_cons.1 hsort).1 m2 hm2r
          have hok2 := hok m2 (List.mem_cons_of_mem m hm2r)
          unfold blockLe at hle
          omega
      refine ⟨hmi, by omega, hms, ?_⟩
      apply ih (s + m.size) (List.pairwise_cons.1 hsort).2
        (by
          rw [List.map_cons] at hdisj
          exact (List.pairwise_cons.1 hdisj).2)
        ?hok2 ?hcover2 (by omega)
      case hok2 =>
        intro m2 hm2
        obtain ⟨h1, h2, h3, h4⟩ := hok m2 (List.mem_cons_of_mem m hm2)
        refine ⟨h1, h2, ?_, h4⟩
        have hdm := (List.pairwise_cons.1 (by
          rw [List.map_cons] at hdisj
          exact hdisj)).1 (bIv m2) (List.mem_map_of_mem bIv hm2)
        simp only [ivDisj, bIv] at hdm
        omega
      case hcover2 =>
        intro x hx1 hx2
        rcases hcover x (by omega) hx2 with ⟨m2, hm2, hy1, hy2⟩
        rcases List.mem_cons.1 hm2 with rfl | hm2r
        · omega
        · exact ⟨m2, hm2r, hy1, hy2⟩

theorem tiling_le (n : Nat) :
    ∀ (l : List Match3) (s : Nat), Tiling n s l → s ≤ n := by
  intro l
  induction l with
  | nil =>
      intro s h
      exact Nat.le_of_eq h
  | cons m rest ih =>
      intro s h
      obtain ⟨h1, h2, h3, h4⟩ := h
      have := ih (s + m.size) h4
      omega

theorem collapse_tiling (n : Nat) :
    ∀ (l : List Match3) (s k : Nat), 1 ≤ k → Tiling n (s + k) l →
      collapseBlocks s s k l = [⟨s, s, k + (n - (s + k))⟩] := by
  intro l
  induction l with
  | nil =>
      intro s k hk ht
      have hsk : s + k = n := ht
      unfold collapseBlocks
      rw [if_pos (by omega)]
      have : k + (n - (s + k)) = k := by omega
      rw [this]
  | cons m rest ih =>
      intro s k hk ht
      obtain ⟨h1, h2, h3, h4⟩ := ht
      unfold collapseBlocks
      rw [if_pos ⟨h1.symm, h2.symm⟩]
      have hrec := ih s (k + m.size) (by omega) (by
        have : s + (k + m.size) = s + k + m.size := by omega
        rw [this]
        exact h4)
      rw [hrec]
      have hle := tiling_le n rest (s + k + m.size) h4
      have : (k + m.size) + (n - (s + (k + m.size))) = k + (n - (s + k)) := by omega
      rw [this]

/-- On equal inputs, `get_matching_blocks` returns the single full-length
diagonal block (plus the sentinel), or just the sentinel when empty. -/
theorem get_matching_blocks_self (a : List String) :
    get_matching_blocks a a =
      if a.length = 0 then [⟨0, 0, 0⟩]
      else [⟨0, 0, a.length⟩, ⟨a.length, a.length, 0⟩] := by
  by_cases h0 : a.length = 0
  · rw [if_pos h0]
    have ha : a = [] := List.length_eq_zero.1 h0
    subst ha
    rfl
  · rw [if_neg h0]
    unfold get_matching_blocks
    show collapseBlocks 0 0 0 ((gmbLoop a a (popularJunk a)
        (2 * (a.length + a.length) + 2) [(0, a.length, 0, a.length)] []).insertionSort
        blockLe) ++ [⟨a.length, a.length, 0⟩] = _
    have hspec := gmbLoop_spec a (popularJunk a) a.length
      (2 * (a.length + a.length) + 2) [(0, a.length, 0, a.length)] []
      (by
        intro r hr
        rcases List.mem_singleton.1 hr with rfl
        refine ⟨rfl, rfl, ?_, ?_⟩
        · show 0 < a.length
          omega
        · show a.length ≤ a.length
          omega)
      (by simp; omega)
      (by simp)
      (by intro m hm; cases hm)
    obtain ⟨hok, hdisj, hcover⟩ := hspec
    set blocks := gmbLoop a a (popularJunk a) (2 * (a.length + a.length) + 2)
      [(0, a.length, 0, a.length)] [] with hblocks
    have hperm : (blocks.insertionSort blockLe).Perm blocks :=
      List.perm_insertionSort blockLe blocks
    have hsorted : List.Pairwise blockLe (blocks.insertionSort blockLe) :=
      List.sorted_insertionSort blockLe blocks
    have htil : Tiling a.length 0 (blocks.insertionSort blockLe) := by
      apply tiling_of_sorted a.length _ 0 hsorted
      · exact ((hperm.map bIv).pairwise_iff (fun h => ivDisj_symm h)).2 hdisj
      · intro m hm
        obtain ⟨h1, h2, h3⟩ := hok m (hperm.mem_iff.1 hm)
        exact ⟨h1, h2, Nat.zero_le _, h3⟩
      · intro x hx1 hx2
        have hxin : (0, a.length, 0, a.length).1 ≤ x ∧ x < (0, a.length, 0, a.length).2.1 := by
          show 0 ≤ x ∧ x < a.length
          omega
        rcases hcover x (Or.inl ⟨(0, a.length, 0, a.length),
          List.mem_singleton.2 rfl, hxin⟩) with ⟨m, hm, hy⟩
        exact ⟨m, hperm.mem_iff.2 hm, hy⟩
      · exact Nat.zero_le _
    rcases hsortl : blocks.insertionSort blockLe with _ | ⟨m, rest⟩
    · rw [hsortl] at htil
      have : (0 : Nat) = a.length := htil
      omega
    · rw [hsortl] at htil
      obtain ⟨h1, h2, h3, h4⟩ := htil
      have hcol := collapse_tiling a.length rest 0 m.size (by omega) (by
        have : (0 : Nat) + m.size = 0 + m.size := rfl
        simpa using h4)
      have hstep : collapseBlocks 0 0 0 (m :: rest) = collapseBlocks 0 0 (0 + m.size) rest := by
        show (if 0 + 0 = m.i ∧ 0 + 0 = m.j then collapseBlocks 0 0 (0 + m.size) rest
          else (if (0 : Nat) ≠ 0 then [⟨0, 0, 0⟩] else [])
            ++ collapseBlocks m.i m.j m.size rest)
          = collapseBlocks 0 0 (0 + m.size) rest
        rw [if_pos ⟨by omega, by omega⟩]
      rw [hstep, Nat.zero_add]
      have hms : m.size ≤ a.length := by
        have := tiling_le a.length rest (0 + m.size) h4
        omega
      rw [show collapseBlocks 0 0 m.size rest = [⟨0, 0, m.size + (a.length - (0 + m.size))⟩]
        from by simpa using hcol]
      have : m.size + (a.length - (0 + m.size)) = a.length := by omega
      rw [this]
      rfl

/-- On equal inputs, `get_opcodes` is a single `equal` opcode (none when the
inputs are empty). -/
theorem get_opcodes_self (a : List String) :
    get_opcodes a a =
      if a.length = 0 then []
      else [⟨.equal, 0, a.length, 0, a.length⟩] := by
  unfold get_opcodes
  rw [get_matching_blocks_self]
  by_cases h0 : a.length = 0
  · rw [if_pos h0, if_pos h0]
    rfl
  · rw [if_neg h0, if_neg h0]
    show opcodesGo 0 0 [⟨0, 0, a.length⟩, ⟨a.length, a.length, 0⟩] = _
    unfold opcodesGo
    rw [if_neg (by
      show ¬((0 : Nat) < 0 ∧ (0 : Nat) < 0)
      omega)]
    rw [if_neg (by
      show ¬(0 : Nat) < 0
      omega)]
    rw [if_neg (by
      show ¬(0 : Nat) < 0
      omega)]
    rw [if_pos (by
      show a.length ≠ 0
      omega)]
    unfold opcodesGo
    rw [if_neg (by
      show ¬(0 + a.length < a.length ∧ 0 + a.length < a.length)
      omega)]
    rw [if_neg (by
      show ¬0 + a.length < a.length
      omega)]
    rw [if_neg (by
      show ¬0 + a.length < a.length
      omega)]
    rw [if_neg (by
      show ¬(0 : Nat) ≠ 0
      omega)]
    unfold opcodesGo
    simp

/-- `_calculate_changes` of identical contents succeeds with all counters
zero: there are no insert or delete opcodes, so the unbound `size` is never
evaluated, and there are no replace groups. -/
theorem calculate_changes_self (s : String) :
    calculate_changes s s = .ok ⟨0, 0, 0⟩ := by
  unfold calculate_changes
  rw [get_opcodes_self]
  by_cases h0 : (splitlines false s).length = 0
  · rw [if_pos h0]
    rfl
  · rw [if_neg h0]
    rfl

/-- On equal inputs, `get_grouped_opcodes` yields no groups: the single
`equal` opcode (or the placeholder for empty inputs) is trimmed by the
head/tail fixups and dropped as a lone `equal` trailing group. -/
theorem get_grouped_opcodes_self (a : List String) :
    get_grouped_opcodes a a 3 = [] := by
  unfold get_grouped_opcodes
  rw [get_opcodes_self]
  by_cases h0 : a.length = 0
  · rw [if_pos h0]
    rfl
  · rw [if_neg h0]
    dsimp only
    have hne : ([⟨Tag.equal, 0, a.length, 0, a.length⟩] : List Opcode).isEmpty = false := rfl
    rw [hne]
    simp only [Bool.false_eq_true, if_false]
    have hfix : fixLast 3 (fixHead 3 [⟨Tag.equal, 0, a.length, 0, a.length⟩]) =
        [⟨Tag.equal, max 0 (a.length - 3), min a.length (max 0 (a.length - 3) + 3),
          max 0 (a.length - 3), min a.length (max 0 (a.length - 3) + 3)⟩] := by
      simp [fixHead, fixLast]
    rw [hfix]
    rw [List.foldl_cons, List.foldl_nil]
    rw [if_neg (by
      intro hcon
      have h2 : 2 * 3 < min a.length (max 0 (a.length - 3) + 3) - max 0 (a.length - 3) :=
        hcon.2
      omega)]
    simp

/-- `unified_diff` of a sequence with itself (context 3, as used by
`get_version_diff`) produces no lines at all: there are no opcode groups,
so not even the `---`/`+++` header is emitted. -/
theorem unified_diff_self (a : List String) (fromfile tofile fromfiledate tofiledate
    lineterm : String) :
    unified_diff a a fromfile tofile fromfiledate tofiledate 3 lineterm = [] := by
  unfold unified_diff
  rw [get_grouped_opcodes_self]

/-- **C7.** For every document collaboration state and every version id that
resolves to a stored version, `get_version_diff` of that version with itself
returns the success dict with an empty diff body and
`changes = {added: 0, removed: 0, modified: 0}` (in particular the unbound
`size` of `_calculate_changes` is never evaluated, since identical contents
produce no insert or delete opcodes). -/
theorem C7_diff_self (dc : DocumentCollaboration) (version_id : String)
    (v : DocumentVersion) (h : get_version dc version_id = some v) :
    get_version_diff dc version_id version_id =
      .ok (.ok version_id version_id "" ⟨0, 0, 0⟩) := by
  unfold get_version_diff
  rw [h]
  simp only [unified_diff_self, calculate_changes_self]
  rfl

/-- Concrete run of `C7_diff_self`: one stored version `"v1"` of `"d1"` with
content `"hello"`; diffing it with itself yields the empty diff and zero
counters. -/
theorem C7_diff_self_witness :
    get_version ⟨"d1", [⟨"hello", "alice", "v1", "T1", ""⟩]⟩ "v1" =
        some ⟨"hello", "alice", "v1", "T1", ""⟩ ∧
    get_version_diff ⟨"d1", [⟨"hello", "alice", "v1", "T1", ""⟩]⟩ "v1" "v1" =
      .ok (.ok "v1" "v1" "" ⟨0, 0, 0⟩) :=
  ⟨by rfl, C7_diff_self _ "v1" ⟨"hello", "alice", "v1", "T1", ""⟩ (by rfl)⟩
